import Mathlib

/-!
# Shallow embedding of libSheetQuery (`src/dist/index.js`, `SheetQueryBuilder`)

This file embeds the Google-Sheets-backed `SheetQueryBuilder` from
`src/dist/index.js` (the first, authoritative section of that file; the
SQL/Postgres sections are explicitly excluded experimental stubs).

Platform model (Google Apps Script `SpreadsheetApp`), fixed once here:

* A sheet is a list of rows of cells.  `getDataRange().getValues()` returns the
  used range padded to a rectangle; theorems state rectangularity of the
  modelled sheet explicitly where the code relies on it.
* A cell is either a literal value carrying an optional rich-text hyperlink, or
  a formula cell carrying the formula text and its displayed value.  Formula
  cells carry no rich-text hyperlink (rich-text links attach to text cells).
* `Range.getRichTextValues` / `getRichTextValue` are modelled as yielding a
  rich-text record for every cell, whose `getLinkUrl()` is the cell's hyperlink
  or `null`; the code's unguarded `richTextValue.getLinkUrl()` accesses are
  well-defined under this model, and truthiness guards on the rich-text value
  itself always pass.
* Writing a plain value to a cell erases its formula and its hyperlink (this is
  why the code re-reads and restores formulas and rich-text links).  Writing a
  formula string re-enters the formula; the static model keeps the previously
  displayed value (exact in the reachable case, where the very formula already
  in the cell is rewritten).
* JavaScript objects are modelled as insertion-ordered association lists with
  assignment semantics `setKey` (update in place if the key exists, append
  otherwise); `Object.values` is the list of values in insertion order.  The
  `__meta` field is modelled as a separate distinguished field of `RowObj`
  (it is always inserted first and deleted before `Object.values` is taken).
* A raised JavaScript error (`TypeError` on a `null`/`undefined` dereference,
  or reading `.length` of `undefined`) is modelled as `Option.none` propagating
  out of the operation.
* Spreadsheet numbers are modelled as `Int` (no claim involves non-integer
  arithmetic).  A blank cell reads as the empty string, as in Apps Script.
-/

namespace SheetQuery

/-- A dynamically-typed spreadsheet value: text, number, or boolean.  A blank
cell reads as the empty string `.str ""`. -/
inductive Value where
  | str (s : String)
  | num (n : Int)
  | bool (b : Bool)
deriving DecidableEq, Repr

/-- A cell of the backing sheet: a literal value with an optional rich-text
hyperlink, or a formula with its displayed value. -/
inductive Cell where
  | lit (v : Value) (link : Option String)
  | formula (f : String) (display : Value)
deriving DecidableEq, Repr

/-- The value `getValues()` reads from a cell. -/
def Cell.value : Cell → Value
  | .lit v _ => v
  | .formula _ d => d

/-- `Range.getFormula()`: the formula text, or the empty string for a
non-formula cell. -/
def Cell.formulaStr : Cell → String
  | .lit _ _ => ""
  | .formula f _ => f

/-- `RichTextValue.getLinkUrl()` of the cell's rich-text value: the hyperlink
if any (formula cells carry none). -/
def Cell.linkUrl : Cell → Option String
  | .lit _ l => l
  | .formula _ _ => none

/-- An empty cell (the platform pads the used range with blanks). -/
def blankCell : Cell := .lit (.str "") none

/-- The `__meta` metadata of a materialized row: 1-based physical row number
and column count. -/
structure RowMeta where
  row : Nat
  cols : Nat
deriving DecidableEq, Repr

/-- A materialized row object: the `__meta` field (absent once deleted, or on
caller-constructed objects) and the heading-keyed entries in JavaScript
insertion order. -/
structure RowObj where
  meta : Option RowMeta
  entries : List (String × Value)
deriving DecidableEq, Repr

/-- JavaScript object assignment `obj[k] = v` on an insertion-ordered
association list: overwrite in place if the key is present, append otherwise. -/
def setKey {α : Type} (es : List (String × α)) (k : String) (v : α) :
    List (String × α) :=
  if es.any (fun e => e.fst = k) then
    es.map (fun e => if e.fst = k then (k, v) else e)
  else es ++ [(k, v)]

/-- JavaScript property read `obj[k]`: the value at key `k`, or `undefined`
(`none`) when absent. -/
def jsLookup {α : Type} (es : List (String × α)) (k : String) : Option α :=
  (es.find? (fun e => e.fst = k)).map (fun e => e.snd)

/-- The string JavaScript uses as a property key for a cell value
(`obj[heading]` coerces the heading to a string). -/
def keyOfValue : Value → String
  | .str s => s
  | .num n => toString n
  | .bool b => if b then "true" else "false"

/-- JavaScript truthiness of a cell value. -/
def jsTruthy : Value → Bool
  | .str s => s ≠ ""
  | .num n => n ≠ 0
  | .bool b => b

/-- JavaScript truthiness of a possibly-absent (`undefined`) value. -/
def truthyOpt : Option Value → Bool
  | none => false
  | some v => jsTruthy v

/-- The backing spreadsheet as resolved for the builder's sheet name:
`mSheet = none` models `getSheetByName` returning `null`, and `flushes` counts
`SpreadsheetApp.flush()` calls. -/
structure Store where
  mSheet : Option (List (List Cell))
  flushes : Nat

/-- The mutable state of a `SheetQueryBuilder`: the heading-row index
(1-based), the installed `where` predicate, and the two lazy caches
`_sheetValues` (null when unset) and `_sheetHeadings` (the empty list doubles
as "unset", exactly as the code's `!this._sheetHeadings.length` check).  The
unused fields `columnNames` and `_numRows` are not modelled (nothing reads
them), and the `_sheet` handle cache is behaviourally transparent here because
sheet resolution is deterministic and the handle is live. -/
structure Builder where
  headingRow : Nat
  whereFn : Option (RowObj → Bool)
  sheetValues : Option (List RowObj)
  sheetHeadings : List Value

/-- Cell at 1-based row and column coordinates, blank outside the used range. -/
def cellAt (sh : List (List Cell)) (r c : Nat) : Cell :=
  (sh.getD (r - 1) []).getD (c - 1) blankCell

/-- `getDataRange().getValues()`: the grid of cell values. -/
def gridValues (sh : List (List Cell)) : List (List Value) :=
  sh.map (fun row => row.map Cell.value)

/-- One materialized row object built by the loop in `getValues`
(lines 154-161): `obj = { __meta: { row, cols } }` followed by
`obj[headings[c]] = sheetValues[r][c]` for `c < numCols`.  Out-of-range reads
default to blank; the platform's rectangular padding makes them unreachable. -/
def mkRowObj (headings : List Value) (vals : List Value) (m : RowMeta) :
    RowObj :=
  { meta := some m
    entries := (List.range m.cols).foldl
      (fun es c =>
        setKey es (keyOfValue (headings.getD c (.str "")))
          (vals.getD c (.str "")))
      [] }

/-- The full unfiltered materialization of the data rows (the `rowValues`
array of `getValues`): row `r` gets `__meta.row = r + headingRow + 1`. -/
def materializeData (headings : List Value) (data : List (List Value))
    (headingRow numCols : Nat) : List RowObj :=
  (List.range data.length).map
    (fun r => mkRowObj headings (data.getD r []) ⟨r + headingRow + 1, numCols⟩)

/-- `getValues()` (lines 139-165).  Returns the cache if set; returns `[]`
without caching when the sheet is missing; otherwise slices off everything
above and including the heading row, crashes (`none`) on an empty slice
(`sheetValues[0].length` on `undefined`, the behaviour claim C10 is about),
and materializes and caches the row objects and headings. -/
def getValuesB (st : Store) (b : Builder) :
    Option (List RowObj × Builder) :=
  match b.sheetValues with
  | some vs => some (vs, b)
  | none =>
    match st.mSheet with
    | none => some ([], b)
    | some sh =>
      let zh := b.headingRow - 1
      let allValues := gridValues sh
      let dataValues := allValues.drop (1 + zh)
      if dataValues.isEmpty then
        none
      else
        let numCols := (dataValues.getD 0 []).length
        let headings := allValues.getD zh []
        let rows := materializeData headings dataValues b.headingRow numCols
        some (rows, { b with sheetValues := some rows,
                             sheetHeadings := headings })

/-- `getRows()` (lines 172-175): `getValues()` filtered through the installed
predicate, or unfiltered when none is installed. -/
def getRowsB (st : Store) (b : Builder) : Option (List RowObj × Builder) :=
  match getValuesB st b with
  | none => none
  | some (vs, b1) =>
    match b.whereFn with
    | some p => some (vs.filter p, b1)
    | none => some (vs, b1)

/-- `getLastColumn()`: the width of the used range. -/
def lastColumn (sh : List (List Cell)) : Nat :=
  sh.foldl (fun m row => max m row.length) 0

/-- `getHeadings()` (lines 182-190).  Returns the cached headings when the
cache is non-empty; otherwise dereferences the sheet handle with no null
guard (`sheet.getLastColumn()` raises a `TypeError` on a missing sheet, hence
`none`), and reads row `headingRow` padded to the last column.
`getSheetValues` with zero columns also raises on the platform. -/
def getHeadingsB (st : Store) (b : Builder) :
    Option (List Value × Builder) :=
  if b.sheetHeadings.isEmpty then
    match st.mSheet with
    | none => none
    | some sh =>
      let zh := b.headingRow - 1
      let numCols := lastColumn sh
      if numCols = 0 then none
      else
        let hs := (List.range numCols).map
          (fun c => ((sh.getD zh []).getD c blankCell).value)
        some (hs, { b with sheetHeadings := hs })
  else some (b.sheetHeadings, b)

/-- `clearCache()` (lines 219-226): discard both caches and flush. -/
def clearCacheB (b : Builder) (st : Store) : Builder × Store :=
  ({ b with sheetValues := none, sheetHeadings := [] },
   { st with flushes := st.flushes + 1 })

/-! ## deleteRows -/

/-- `deleteCells(SpreadsheetApp.Dimension.ROWS)` on a 1-row range spanning the
full data width: remove the physical row `p` (1-based), shifting later rows
up.  (`__meta.cols` is the full rectangular width of the data range, so the
deleted range spans the whole row.) -/
def removeRowAt (sh : List (List Cell)) (p : Nat) : List (List Cell) :=
  sh.take (p - 1) ++ sh.drop p

/-- The `rows.forEach` loop of `deleteRows` (lines 61-66): delete
`row.__meta.row - i` and increment the running offset `i`.  An absent `__meta`
crashes (`row.__meta.row` on `undefined`). -/
def deleteLoop : List RowObj → Nat → List (List Cell) →
    Option (List (List Cell))
  | [], _, sh => some sh
  | r :: rs, i, sh =>
    match r.meta with
    | none => none
    | some m => deleteLoop rs (i + 1) (removeRowAt sh (m.row - i))

/-- `deleteRows()` (lines 59-69): fetch matched rows, run the deletion loop
against the live sheet, then `clearCache()`.  With no matched rows the sheet
handle is never dereferenced, so a missing sheet is only an error when a
matched row exists. -/
def deleteRowsB (st : Store) (b : Builder) : Option (Builder × Store) :=
  match getRowsB st b with
  | none => none
  | some (rows, b1) =>
    match rows, st.mSheet with
    | [], _ => some (clearCacheB b1 st)
    | _ :: _, none => none
    | _ :: _, some sh =>
      match deleteLoop rows 0 sh with
      | none => none
      | some sh2 => some (clearCacheB b1 { st with mSheet := some sh2 })

/-! ## updateRows -/

/-- An element of the `arrayValues` array sent to `setValues`: either a plain
value or a formula string spliced in by the formula-restoration loop. -/
inductive Written where
  | val (v : Value)
  | fml (f : String)
deriving DecidableEq, Repr

/-- The text `setText` receives for an `arrayValues` entry. -/
def writtenText : Written → Value
  | .val v => v
  | .fml f => .str f

/-- Writing one `arrayValues` entry into a cell: a plain value erases formula
and hyperlink; a formula string re-enters the formula (the static model keeps
the previously displayed value, exact in the reachable case where the cell's
own formula is rewritten). -/
def applyWrite (w : Written) (old : Cell) : Cell :=
  match w with
  | .val v => .lit v none
  | .fml f => .formula f old.value

/-- JavaScript array assignment `a[j] = w`: in-place if `j < length`,
otherwise extend, filling holes with blanks (`undefined` is written back as a
blank by the platform). -/
def setIdxExtend (l : List Written) (j : Nat) (w : Written) : List Written :=
  if j < l.length then l.set j w
  else l ++ List.replicate (j - l.length) (.val (.str "")) ++ [w]

/-- An updater callback: from the received row object, the (possibly
in-place-mutated) row and the callback's return value (`none` models
returning nothing/`undefined`). -/
def UpdateFn := RowObj → RowObj × Option RowObj

/-- The values of the row object chosen by lines 86-92: the returned object
when it is truthy and still carries `__meta`, otherwise the original
(possibly mutated) row; `__meta` is deleted before `Object.values`. -/
def chosenVals (mutRow : RowObj) (ret : Option RowObj) : List Value :=
  match ret with
  | some ur =>
    if ur.meta.isSome then ur.entries.map (fun e => e.snd)
    else mutRow.entries.map (fun e => e.snd)
  | none => mutRow.entries.map (fun e => e.snd)

/-- The initial `arrayValues` array (all plain values). -/
def chooseValues (mutRow : RowObj) (ret : Option RowObj) : List Written :=
  (chosenVals mutRow ret).map .val

/-- The formula-restoration loop (lines 95-102): for each column `1..cols`,
splice the cell's formula string into `arrayValues` when non-empty. -/
def restoreFormulas (oldRow : List Cell) (cols : Nat) (av : List Written) :
    List Written :=
  (List.range cols).foldl
    (fun av i =>
      let f := (oldRow.getD i blankCell).formulaStr
      if f ≠ "" then setIdxExtend av i (.fml f) else av)
    av

/-- `updateRowRange.setValues([arrayValues])` (line 104) on the row's cells:
positions covered by `arrayValues` are overwritten, the rest keep their
content.  (The platform's range-dimension check is not modelled; reachable
calls write exactly `cols` values.) -/
def writeCells (oldRow : List Cell) (ws : List Written) : List Cell :=
  (List.range (max oldRow.length ws.length)).map
    (fun j =>
      match ws.get? j with
      | some w => applyWrite w (oldRow.getD j blankCell)
      | none => oldRow.getD j blankCell)

/-- The rich-text patch loop (lines 107-117): for each column whose original
rich-text value carried a hyperlink, rebuild the cell as text
`arrayValues[i-1]` with the original link reattached. -/
def patchLinks (links : List (Option String)) (ws : List Written) (cols : Nat)
    (row : List Cell) : List Cell :=
  (List.range cols).foldl
    (fun row i =>
      match links.getD i none with
      | some url =>
        row.set i (Cell.lit (writtenText (ws.getD i (.val (.str "")))) (some url))
      | none => row)
    row

/-- The full per-row body of the `updateRows` loop: snapshot the rich-text
links, invoke the callback, choose the value array, restore formulas, bulk
write, then patch hyperlinks. -/
def rowTransform (f : UpdateFn) (r : RowObj) (m : RowMeta)
    (oldRow : List Cell) : List Cell :=
  let links := (List.range m.cols).map
    (fun i => (oldRow.getD i blankCell).linkUrl)
  let p := f r
  let av0 := chooseValues p.fst p.snd
  let av1 := restoreFormulas oldRow m.cols av0
  let row1 := writeCells oldRow av1
  patchLinks links av1 m.cols row1

/-- The row of the sheet at 1-based physical position `p`. -/
def getRowAt (sh : List (List Cell)) (p : Nat) : List Cell :=
  sh.getD (p - 1) []

/-- Replace the row at 1-based physical position `p`. -/
def setRowAt (sh : List (List Cell)) (p : Nat) (row : List Cell) :
    List (List Cell) :=
  sh.set (p - 1) row

/-- The `rows.forEach` loop of `updateRows` (lines 79-118): each matched row
is read from and written back to its own physical row.  An absent `__meta`
crashes (`row.__meta.cols` on `undefined`). -/
def updateLoop (f : UpdateFn) : List RowObj → List (List Cell) →
    Option (List (List Cell))
  | [], sh => some sh
  | r :: rs, sh =>
    match r.meta with
    | none => none
    | some m =>
      updateLoop f rs (setRowAt sh m.row (rowTransform f r m (getRowAt sh m.row)))

/-- `updateRows(updateFn)` (lines 77-122): fetch matched rows, run the update
loop against the live sheet, then `clearCache()`. -/
def updateRowsB (st : Store) (b : Builder) (f : UpdateFn) :
    Option (Builder × Store) :=
  match getRowsB st b with
  | none => none
  | some (rows, b1) =>
    match rows, st.mSheet with
    | [], _ => some (clearCacheB b1 st)
    | _ :: _, none => none
    | _ :: _, some sh =>
      match updateLoop f rows sh with
      | none => none
      | some sh2 => some (clearCacheB b1 { st with mSheet := some sh2 })

/-! ## insertRows -/

/-- A candidate row object passed to `insertRows`: a plain heading-keyed
dictionary. -/
def DictObj := List (String × Value)

/-- The per-heading value selection of `insertRows` (line 207):
`(heading && row[heading]) || (heading && row[heading] === false)
  ? row[heading] : ''`. -/
def insertValue (heading : Value) (mv : Option Value) : Value :=
  if (jsTruthy heading && truthyOpt mv)
      || (jsTruthy heading && decide (mv = some (.bool false))) then
    mv.getD (.str "")
  else .str ""

/-- The positional array `appendRow` receives for one candidate row. -/
def appendedRow (hs : List Value) (r : DictObj) : List Cell :=
  hs.map (fun h => Cell.lit (insertValue h (jsLookup r (keyOfValue h))) none)

/-- The `newRows.forEach` loop of `insertRows` (lines 202-210): skip `null`
candidates silently; `sheet.appendRow` on a missing sheet raises. -/
def insertLoop (hs : List Value) :
    List (Option DictObj) → Option (List (List Cell)) →
    Option (Option (List (List Cell)))
  | [], msh => some msh
  | none :: rest, msh => insertLoop hs rest msh
  | some r :: rest, msh =>
    match msh with
    | none => none
    | some sh => insertLoop hs rest (some (sh ++ [appendedRow hs r]))

/-- `insertRows(newRows)` (lines 199-212): resolve headings (which may
populate the heading cache, and raises on a missing sheet when the cache is
empty), then append one positional row per non-null candidate.  No cache
invalidation and no flush. -/
def insertRowsB (st : Store) (b : Builder) (newRows : List (Option DictObj)) :
    Option (Builder × Store) :=
  match getHeadingsB st b with
  | none => none
  | some (hs, b1) =>
    match insertLoop hs newRows st.mSheet with
    | none => none
    | some msh2 => some (b1, { st with mSheet := msh2 })

/-! ## getUrls -/

/-- The per-row heading-keyed URL map of `getUrls` (lines 246-251):
`url[heading] = cellRichTextValue.getLinkUrl()`.  Under the platform model
every cell yields a rich-text value, so the truthiness guard on it always
passes and every heading receives an entry (`null` when no hyperlink). -/
def urlMapFor (hs : List Value) (sh : List (List Cell)) (p : Nat) :
    List (String × Option String) :=
  (List.range hs.length).foldl
    (fun es i =>
      setKey es (keyOfValue (hs.getD i (.str ""))) ((cellAt sh p (i + 1)).linkUrl))
    []

/-- The `rows.forEach` loop of `getUrls`: one URL map per matched row,
dereferencing the sheet handle and `row.__meta.row` per row. -/
def urlLoop (hs : List Value) (msh : Option (List (List Cell))) :
    List RowObj → Option (List (List (String × Option String)))
  | [] => some []
  | r :: rs =>
    match r.meta, msh with
    | some m, some sh =>
      match urlLoop hs msh rs with
      | none => none
      | some us => some (urlMapFor hs sh m.row :: us)
    | _, _ => none

/-- `getUrls()` (lines 242-255). -/
def getUrlsB (st : Store) (b : Builder) :
    Option (List (List (String × Option String))) :=
  match getRowsB st b with
  | none => none
  | some (rows, b1) => urlLoop b1.sheetHeadings st.mSheet rows

/-! ## Derived and specification-side definitions -/

/-- The builder produced by `sheetQuery().from(name, H)` optionally followed by
`.where(P)`: both caches empty. -/
def freshBuilder (H : Nat) (w : Option (RowObj → Bool)) : Builder :=
  ⟨H, w, none, []⟩

/-- Example sheet of the specification's end-to-end example: headings
`[Amount, Category, Business]` above two data rows. -/
def exampleGrid : List (List Cell) :=
  [[.lit (.str "Amount") none, .lit (.str "Category") none,
    .lit (.str "Business") none],
   [.lit (.num 95) none, .lit (.str "Shops") none, .lit (.str "Walmart") none],
   [.lit (.num 10) none, .lit (.str "Coffee") none,
    .lit (.str "Starbucks") none]]

/-- The predicate of the specification's example:
`row => row.Category === "Shops"`. -/
def shopsPredicate : RowObj → Bool :=
  fun r => decide (jsLookup r.entries "Category" = some (.str "Shops"))

/-- Recursive form of the materialization of `getValues`, indexed by the
0-based data-row offset `j` (used to reason about the write loops row by
row). -/
def matRowsFrom (headings : List Value) (H W : Nat) :
    Nat → List (List Value) → List RowObj
  | _, [] => []
  | j, v :: vs =>
    mkRowObj headings v ⟨j + H + 1, W⟩ :: matRowsFrom headings H W (j + 1) vs

/-- Specification-side description of what `deleteRows` leaves of the data
rows: exactly the data rows whose materialized row object fails the
predicate, in order. -/
def specDeleteData (P : RowObj → Bool) (headings : List Value) (H W : Nat) :
    Nat → List (List Cell) → List (List Cell)
  | _, [] => []
  | j, row :: rest =>
    if P (mkRowObj headings (row.map Cell.value) ⟨j + H + 1, W⟩)
    then specDeleteData P headings H W (j + 1) rest
    else row :: specDeleteData P headings H W (j + 1) rest

/-- Example sheet for the delete claim: one heading row and six data rows,
with the rows at physical positions 3, 5 and 7 matching the delete
predicate. -/
def deleteExampleGrid : List (List Cell) :=
  [[.lit (.str "A") none],
   [.lit (.str "keep1") none], [.lit (.str "DELETEME") none],
   [.lit (.str "keep2") none], [.lit (.str "DELETEME") none],
   [.lit (.str "keep3") none], [.lit (.str "DELETEME") none]]

/-- The delete predicate of the example: `row => row.A === "DELETEME"`. -/
def deletePredicate : RowObj → Bool :=
  fun r => decide (jsLookup r.entries "A" = some (.str "DELETEME"))

/-- Specification-side description of what `updateRows` leaves of the data
rows: each data row whose materialized row object matches the predicate is
replaced by the result of the per-row write-back, the others are untouched. -/
def specUpdateData (P : RowObj → Bool) (f : UpdateFn) (headings : List Value)
    (H W : Nat) : Nat → List (List Cell) → List (List Cell)
  | _, [] => []
  | j, row :: rest =>
    (if P (mkRowObj headings (row.map Cell.value) ⟨j + H + 1, W⟩)
     then rowTransform f (mkRowObj headings (row.map Cell.value) ⟨j + H + 1, W⟩)
       ⟨j + H + 1, W⟩ row
     else row) :: specUpdateData P f headings H W (j + 1) rest

/-- Example sheet for the update claims: headings `[A, B]`, one data row
with a formula in column `B` and a hyperlink on column `A`. -/
def updateExampleGrid : List (List Cell) :=
  [[.lit (.str "A") none, .lit (.str "B") none],
   [.lit (.str "x") (some "http://u"), .formula "=SUM(1,2)" (.num 3)]]

/-- Example updater writing the literal 99 into every in-memory column of the
row it receives and returning the mutated row (which still carries
`__meta`). -/
def overwriteUpdateFn : UpdateFn := fun r =>
  let r2 : RowObj :=
    { r with entries := r.entries.map (fun e => (e.fst, Value.num 99)) }
  (r2, some r2)

/-- Formula-free example sheet for the update dual-contract claim. -/
def dualExampleGrid : List (List Cell) :=
  [[.lit (.str "A") none], [.lit (.num 5) (some "http://w")]]

/-- Example updater that returns a fresh object still carrying `__meta`. -/
def dualUpdateFn : UpdateFn := fun r =>
  (r, some { meta := r.meta, entries := [("A", Value.num 7)] })

/-- Example updater for the counterexample to C4 as stated: it returns an
object (without `__meta`) whose values the claim says are written back. -/
def metalessUpdateFn : UpdateFn := fun r =>
  (r, some { meta := none, entries := [("A", Value.num 7)] })

/-- Specification-side value rule for `insertRows` (from the spec's words:
"if present, use it; if explicitly false, use false; otherwise use an empty
string"), extended with the falsy-heading case the code adds. -/
def specInsertValue (heading : Value) (mv : Option Value) : Value :=
  if jsTruthy heading then
    if truthyOpt mv then mv.getD (.str "")
    else if mv = some (.bool false) then .bool false
    else .str ""
  else .str ""

/-- Example sheet for the insert claim: headings `A`, `B` and a blank
heading cell. -/
def insertExampleGrid : List (List Cell) :=
  [[.lit (.str "A") none, .lit (.str "B") none, .lit (.str "") none]]

/-- Example sheet for the URL claim: a text cell with no hyperlink above a
text cell carrying one. -/
def urlExampleGrid : List (List Cell) :=
  [[.lit (.str "A") none],
   [.lit (.str "hello") none],
   [.lit (.str "x") (some "http://y")]]

/-! ## Theorems -/

theorem getD_eq_of_lt {α : Type} (l : List α) (d : α) (k : Nat)
    (h : k < l.length) : l.getD k d = l.get ⟨k, h⟩ := by
  simp [List.getD_eq_getElem?_getD, List.getElem?_eq_getElem h]

theorem rangeMap_getD {α β : Type} (F : α → β) (d : α) :
    ∀ l : List α,
      (List.range l.length).map (fun c => F (l.getD c d)) = l.map F
  | [] => rfl
  | x :: xs => by
    rw [List.length_cons, List.range_succ_eq_map, List.map_cons, List.map_map]
    simp only [List.getD_cons_zero, Function.comp_def, List.getD_cons_succ]
    rw [rangeMap_getD F d xs, List.map_cons]

theorem setKey_of_not_mem {α : Type} {es : List (String × α)} {k : String}
    (h : ∀ e ∈ es, e.fst ≠ k) (v : α) : setKey es k v = es ++ [(k, v)] := by
  have hv : es.any (fun e => e.fst = k) = false := by
    simp only [List.any_eq_false, decide_eq_true_eq]
    exact h
  simp [setKey, hv]

theorem foldl_setKey_eq_append {α : Type} (key : Nat → String) (val : Nat → α) :
    ∀ (L : List Nat) (es : List (String × α)),
      (L.map key).Nodup → (∀ c ∈ L, ∀ e ∈ es, e.fst ≠ key c) →
      L.foldl (fun es c => setKey es (key c) (val c)) es
        = es ++ L.map (fun c => (key c, val c))
  | [], es, _, _ => by simp
  | c :: L, es, hnd, hdisj => by
    rw [List.map_cons, List.nodup_cons] at hnd
    rw [List.foldl_cons,
      setKey_of_not_mem (fun e he => hdisj c (by simp) e he) (val c),
      foldl_setKey_eq_append key val L (es ++ [(key c, val c)]) hnd.2 ?hd]
    · simp
    case hd =>
      intro c' hc' e he
      rcases List.mem_append.1 he with he | he
      · exact hdisj c' (List.mem_cons_of_mem _ hc') e he
      · rcases List.mem_singleton.1 he with rfl
        intro hkk
        apply hnd.1
        rw [show key c = key c' from hkk]
        exact List.mem_map_of_mem key hc'

theorem mkRowObj_entries_eq_zip (headings vals : List Value) (m : RowMeta)
    (hW : headings.length = m.cols) (hv : vals.length = m.cols)
    (hnd : (headings.map keyOfValue).Nodup) :
    (mkRowObj headings vals m).entries
      = (headings.map keyOfValue).zip vals := by
  have hkey : (List.range m.cols).map
      (fun c => keyOfValue (headings.getD c (.str "")))
      = headings.map keyOfValue := by
    rw [← hW, rangeMap_getD]
  have hval : (List.range m.cols).map (fun c => vals.getD c (.str ""))
      = vals := by
    rw [← hv]
    have := rangeMap_getD (fun v : Value => v) (.str "") vals
    simpa using this
  simp only [mkRowObj]
  rw [foldl_setKey_eq_append _ _ _ _ (by rw [hkey]; exact hnd)
      (by intro c hc e he; cases he), List.nil_append]
  conv_rhs => rw [← hkey, ← hval]
  rw [List.zip_map']

theorem gridValues_getD (g : List (List Cell)) (n : Nat) :
    (gridValues g).getD n [] = (g.getD n []).map Cell.value := by
  unfold gridValues
  rw [List.getD_eq_getElem?_getD, List.getD_eq_getElem?_getD,
    List.getElem?_map]
  cases h : g[n]? with
  | none => rfl
  | some row => rfl

/-- The unfiltered materialization `getValues` produces from a fresh builder
on an existing, rectangular sheet with at least one data row. -/
theorem getValuesB_fresh_eq (g : List (List Cell)) (H W fl : Nat)
    (w : Option (RowObj → Bool))
    (hH : 1 ≤ H) (hlen : H < g.length) (hrect : ∀ row ∈ g, row.length = W) :
    getValuesB ⟨some g, fl⟩ (freshBuilder H w)
      = some (materializeData ((g.getD (H - 1) []).map Cell.value)
          (gridValues (g.drop H)) H W,
        { freshBuilder H w with
            sheetValues := some (materializeData
              ((g.getD (H - 1) []).map Cell.value)
              (gridValues (g.drop H)) H W),
            sheetHeadings := (g.getD (H - 1) []).map Cell.value }) := by
  have hdz : 1 + (H - 1) = H := by omega
  have hdrop : (gridValues g).drop (1 + (H - 1)) = gridValues (g.drop H) := by
    rw [hdz]; unfold gridValues; rw [List.map_drop]
  have hdne : (g.drop H) ≠ [] := by
    intro hcon
    have := List.drop_eq_nil_iff.1 hcon
    omega
  have hdne2 : (gridValues (g.drop H)).isEmpty = false := by
    unfold gridValues
    cases hc : g.drop H with
    | nil => exact absurd hc hdne
    | cons a l => simp [hc]
  have hhead : (((g.drop H).getD 0 []).map Cell.value).length = W := by
    rw [List.length_map]
    cases hc : g.drop H with
    | nil => exact absurd hc hdne
    | cons a l =>
      have ha : a ∈ g := by
        have : a ∈ g.drop H := by rw [hc]; exact List.mem_cons_self a l
        exact List.mem_of_mem_drop this
      simp [hrect a ha]
  simp only [getValuesB, freshBuilder, hdrop, hdne2, Bool.false_eq_true,
    if_false, gridValues_getD, hhead]

/-- C1 (amended claim): with no predicate installed, `getRows()` on a table
with heading row `H` (1-based), `N` data rows, rectangular width `W` and
duplicate-free heading keys returns exactly `N` row objects; row `r` (0-based
offset) has entries keyed by the headings in position order and metadata
`row = r + H + 1, cols = W`, so the metadata row values are the consecutive
physical row numbers starting at `H + 1` (not `H + 2` as the original claim
states — see `getRows_meta_counterexample`). -/
theorem getRows_noPredicate_materialization (g : List (List Cell))
    (H W fl : Nat) (hH : 1 ≤ H) (hlen : H < g.length)
    (hrect : ∀ row ∈ g, row.length = W)
    (hnd : ((g.getD (H - 1) []).map (fun c => keyOfValue c.value)).Nodup) :
    (getRowsB ⟨some g, fl⟩ (freshBuilder H none)).map Prod.fst
      = some ((List.range (g.length - H)).map (fun r =>
          { meta := some ⟨r + H + 1, W⟩
            entries := ((g.getD (H - 1) []).map
                (fun c => keyOfValue c.value)).zip
              (((g.drop H).getD r []).map Cell.value) })) := by
  unfold getRowsB
  rw [getValuesB_fresh_eq g H W fl none hH hlen hrect]
  simp only [freshBuilder, Option.map_some']
  congr 1
  unfold materializeData
  have hN : (gridValues (g.drop H)).length = g.length - H := by
    unfold gridValues
    rw [List.length_map, List.length_drop]
  rw [hN]
  apply List.map_congr_left
  intro r hr
  have hrN : r < g.length - H := List.mem_range.1 hr
  have h1 : r < (g.drop H).length := by rw [List.length_drop]; exact hrN
  have hmem : (g.drop H).getD r [] ∈ g := by
    rw [getD_eq_of_lt _ _ r h1]
    exact List.mem_of_mem_drop (List.get_mem _ _ _)
  have hWr : ((g.drop H).getD r []).length = W := hrect _ hmem
  have hhl : ((g.getD (H - 1) []).map Cell.value).length = W := by
    rw [List.length_map]
    refine hrect _ ?_
    rw [getD_eq_of_lt _ _ (H - 1) (by omega)]
    exact List.get_mem _ _ _
  rw [gridValues_getD]
  rw [show (mkRowObj ((g.getD (H - 1) []).map Cell.value)
      (((g.drop H).getD r []).map Cell.value) ⟨r + H + 1, W⟩)
      = RowObj.mk (some ⟨r + H + 1, W⟩)
        ((mkRowObj ((g.getD (H - 1) []).map Cell.value)
          (((g.drop H).getD r []).map Cell.value) ⟨r + H + 1, W⟩).entries)
    from rfl]
  rw [mkRowObj_entries_eq_zip _ _ _ (by simpa using hhl)
      (by rw [List.length_map]; exact hWr)
      (by simpa [List.map_map, Function.comp_def] using hnd)]
  simp [List.map_map, Function.comp_def]

/-- Witness for C1's amended theorem at the specification's example table:
heading row 1, two data rows, width 3. -/
theorem getRows_noPredicate_materialization_witness :
    (1 ≤ 1 ∧ 1 < exampleGrid.length
      ∧ (∀ row ∈ exampleGrid, row.length = 3)
      ∧ ((exampleGrid.getD 0 []).map
          (fun c => keyOfValue c.value)).Nodup)
    ∧ (getRowsB ⟨some exampleGrid, 0⟩ (freshBuilder 1 none)).map Prod.fst
      = some ((List.range (exampleGrid.length - 1)).map (fun r =>
          { meta := some ⟨r + 1 + 1, 3⟩
            entries := ((exampleGrid.getD 0 []).map
                (fun c => keyOfValue c.value)).zip
              (((exampleGrid.drop 1).getD r []).map Cell.value) })) :=
  ⟨⟨by decide, by decide, by decide, by decide⟩,
    getRows_noPredicate_materialization exampleGrid 1 3 0 (by decide)
      (by decide) (by decide) (by decide)⟩

/-- Counterexample to C1 as stated: in the specification's own example
(heading row `H = 1`, match on `Category = "Shops"`), the matched row is the
first data row (offset 0) and its metadata row number is `2 = 0 + H + 1`,
not `3 = 0 + H + 2` as the claim's formula and the spec's example
(`__meta:{row:3,cols:3}`) state. -/
theorem getRows_meta_counterexample :
    (getRowsB ⟨some exampleGrid, 0⟩
        (freshBuilder 1 (some shopsPredicate))).map
      (fun p => p.fst.map (fun r => r.meta)) = some [some ⟨2, 3⟩]
    ∧ (2 : Nat) ≠ 0 + 1 + 2 := ⟨by decide, by decide⟩

/-- C6: `getRows()` equals `getValues()` filtered through the installed
predicate, in order, and equals `getValues()` unchanged when no predicate is
installed.  (That `getRows` performs no store writes is expressed by the
embedding itself: the read operations are functions of the store and return
no store.) -/
theorem getRows_filter_equiv (st : Store) (b : Builder) :
    (∀ P, b.whereFn = some P →
      getRowsB st b
        = (getValuesB st b).map (fun p => (p.fst.filter P, p.snd)))
    ∧ (b.whereFn = none → getRowsB st b = getValuesB st b) := by
  constructor
  · intro P hP
    unfold getRowsB
    cases h : getValuesB st b with
    | none => rfl
    | some p => simp [hP]
  · intro hP
    unfold getRowsB
    cases h : getValuesB st b with
    | none => rfl
    | some p => simp [hP]

/-- Witness for C6 at a concrete store and builder, once with the example
predicate installed and once without. -/
theorem getRows_filter_equiv_witness :
    (getRowsB ⟨some exampleGrid, 0⟩ (freshBuilder 1 (some shopsPredicate))
      = (getValuesB ⟨some exampleGrid, 0⟩
          (freshBuilder 1 (some shopsPredicate))).map
        (fun p => (p.fst.filter shopsPredicate, p.snd)))
    ∧ (getRowsB ⟨some exampleGrid, 0⟩ (freshBuilder 1 none)
      = getValuesB ⟨some exampleGrid, 0⟩ (freshBuilder 1 none)) :=
  ⟨(getRows_filter_equiv ⟨some exampleGrid, 0⟩
      (freshBuilder 1 (some shopsPredicate))).1 shopsPredicate rfl,
   (getRows_filter_equiv ⟨some exampleGrid, 0⟩ (freshBuilder 1 none)).2 rfl⟩

/-- C10: on an existing table whose data range has no rows below the
configured heading row, `getValues()` does not return an empty sequence: it
reads `sheetValues[0].length` on an `undefined` first element and raises
(modelled as `none`), and `getRows()` raises with it. -/
theorem getValues_empty_table_raises (st : Store) (b : Builder)
    (g : List (List Cell)) (hst : st.mSheet = some g)
    (hb : b.sheetValues = none) (hH : 1 ≤ b.headingRow)
    (hle : g.length ≤ b.headingRow) :
    getValuesB st b = none ∧ getRowsB st b = none := by
  have h1 : (gridValues g).drop (1 + (b.headingRow - 1)) = [] := by
    apply List.drop_eq_nil_of_le
    unfold gridValues
    rw [List.length_map]
    omega
  constructor
  · simp [getValuesB, hb, hst, h1]
  · simp [getRowsB, getValuesB, hb, hst, h1]

/-- Witness for C10: a sheet holding only its heading row. -/
theorem getValues_empty_table_raises_witness :
    ((⟨some [[Cell.lit (.str "A") none]], 0⟩ : Store).mSheet
        = some [[Cell.lit (.str "A") none]]
      ∧ (freshBuilder 1 none).sheetValues = none
      ∧ 1 ≤ (freshBuilder 1 none).headingRow
      ∧ ([[Cell.lit (.str "A") none]] : List (List Cell)).length
          ≤ (freshBuilder 1 none).headingRow)
    ∧ (getValuesB ⟨some [[Cell.lit (.str "A") none]], 0⟩
        (freshBuilder 1 none) = none
      ∧ getRowsB ⟨some [[Cell.lit (.str "A") none]], 0⟩
        (freshBuilder 1 none) = none) :=
  ⟨⟨rfl, rfl, by decide, by decide⟩,
    getValues_empty_table_raises _ _ [[Cell.lit (.str "A") none]] rfl rfl
      (by decide) (by decide)⟩

/-- C8 (amended claim): when the named sheet does not exist, `getValues()`
degrades to the empty sequence (without caching), but `getHeadings()` does
not: with an empty heading cache it dereferences the `null` sheet handle
(`sheet.getLastColumn()`) and raises a `TypeError`; with a non-empty cache it
returns the cached headings without consulting the store. -/
theorem missing_sheet_reads (st : Store) (b : Builder)
    (hst : st.mSheet = none) :
    (b.sheetValues = none → getValuesB st b = some ([], b))
    ∧ (b.sheetHeadings = [] → getHeadingsB st b = none)
    ∧ (b.sheetHeadings ≠ [] → getHeadingsB st b = some (b.sheetHeadings, b)) := by
  refine ⟨fun hb => ?_, fun hb => ?_, fun hb => ?_⟩
  · simp [getValuesB, hb, hst]
  · simp [getHeadingsB, hb, hst]
  · have : b.sheetHeadings.isEmpty = false := by
      cases hc : b.sheetHeadings with
      | nil => exact absurd hc hb
      | cons a l => rfl
    simp [getHeadingsB, this]

/-- Witness for C8's amended theorem on a missing sheet with a fresh builder
(empty caches). -/
theorem missing_sheet_reads_witness :
    ((⟨none, 0⟩ : Store).mSheet = none
      ∧ (freshBuilder 1 none).sheetValues = none
      ∧ (freshBuilder 1 none).sheetHeadings = [])
    ∧ (getValuesB ⟨none, 0⟩ (freshBuilder 1 none)
        = some ([], freshBuilder 1 none)
      ∧ getHeadingsB ⟨none, 0⟩ (freshBuilder 1 none) = none) :=
  ⟨⟨rfl, rfl, rfl⟩,
    ⟨(missing_sheet_reads ⟨none, 0⟩ (freshBuilder 1 none) rfl).1 rfl,
     (missing_sheet_reads ⟨none, 0⟩ (freshBuilder 1 none) rfl).2.1 rfl⟩⟩

/-- Counterexample to C8 as stated: on a missing sheet, `getHeadings()` with
an empty heading cache raises (modelled `none`) instead of returning an empty
sequence, while `getValues()` does degrade to the empty sequence. -/
theorem missing_sheet_getHeadings_counterexample :
    getHeadingsB ⟨none, 0⟩ (freshBuilder 1 none) = none
    ∧ (getValuesB ⟨none, 0⟩ (freshBuilder 1 none)).map Prod.fst
        = some [] := ⟨rfl, rfl⟩

theorem mkRowObj_meta (headings vals : List Value) (m : RowMeta) :
    (mkRowObj headings vals m).meta = some m := rfl

theorem removeRowAt_append : ∀ (A : List (List Cell)) (x : List Cell)
    (xs : List (List Cell)),
    removeRowAt (A ++ x :: xs) (A.length + 1) = A ++ xs
  | [], x, xs => by simp [removeRowAt]
  | a :: A, x, xs => by
    have ih := removeRowAt_append A x xs
    unfold removeRowAt at ih ⊢
    simp only [Nat.add_sub_cancel] at ih ⊢
    simp only [List.length_cons, List.cons_append, List.take_succ_cons,
      List.drop_succ_cons]
    exact congrArg (a :: ·) ih

/-- The core invariant of the deletion loop: when `i` rows have already been
deleted and they all lay above the remaining suffix `cxs`, the current sheet
is `pre ++ cxs` with `pre.length + i = H + j`, so the next matched row
(data offset `j`, recorded physical row `j + H + 1`) is deleted at corrected
position `pre.length + 1` — the head of `cxs`. -/
theorem deleteLoop_matched (P : RowObj → Bool) (headings : List Value)
    (H W : Nat) :
    ∀ (cxs pre : List (List Cell)) (i j : Nat),
      pre.length + i = H + j →
      deleteLoop ((matRowsFrom headings H W j
          (cxs.map (fun row => row.map Cell.value))).filter P) i (pre ++ cxs)
        = some (pre ++ specDeleteData P headings H W j cxs)
  | [], pre, i, j, _ => by
    simp [matRowsFrom, specDeleteData, deleteLoop]
  | x :: xs, pre, i, j, hinv => by
    simp only [List.map_cons, matRowsFrom, specDeleteData]
    by_cases hP : P (mkRowObj headings (x.map Cell.value) ⟨j + H + 1, W⟩)
    · rw [List.filter_cons_of_pos (by simpa using hP), if_pos hP]
      simp only [deleteLoop, mkRowObj_meta]
      have hpos : (⟨j + H + 1, W⟩ : RowMeta).row - i = pre.length + 1 := by
        show j + H + 1 - i = pre.length + 1
        omega
      rw [hpos, removeRowAt_append]
      exact deleteLoop_matched P headings H W xs pre (i + 1) (j + 1)
        (by omega)
    · rw [List.filter_cons_of_neg (by simpa using hP), if_neg hP]
      have ih := deleteLoop_matched P headings H W xs (pre ++ [x]) i (j + 1)
        (by simp only [List.length_append, List.length_cons,
              List.length_nil]; omega)
      rw [List.append_assoc, List.singleton_append] at ih
      rw [ih, List.append_assoc, List.singleton_append]

theorem specDeleteData_of_no_match (P : RowObj → Bool) (headings : List Value)
    (H W : Nat) :
    ∀ (cxs : List (List Cell)) (j : Nat),
      (matRowsFrom headings H W j
        (cxs.map (fun row => row.map Cell.value))).filter P = [] →
      specDeleteData P headings H W j cxs = cxs
  | [], _, _ => rfl
  | x :: xs, j, h => by
    simp only [List.map_cons, matRowsFrom] at h
    by_cases hP : P (mkRowObj headings (x.map Cell.value) ⟨j + H + 1, W⟩)
    · rw [List.filter_cons_of_pos (by simpa using hP)] at h
      exact absurd h (List.cons_ne_nil _ _)
    · rw [List.filter_cons_of_neg (by simpa using hP)] at h
      simp only [specDeleteData, if_neg hP]
      rw [specDeleteData_of_no_match P headings H W xs (j + 1) h]

theorem materializeData_eq_from (headings : List Value) (H W : Nat) :
    ∀ (data : List (List Value)) (j : Nat),
      (List.range data.length).map
        (fun r => mkRowObj headings (data.getD r []) ⟨j + r + H + 1, W⟩)
        = matRowsFrom headings H W j data
  | [], _ => rfl
  | v :: vs, j => by
    rw [List.length_cons, List.range_succ_eq_map, List.map_cons, List.map_map]
    simp only [List.getD_cons_zero, Function.comp_def, List.getD_cons_succ,
      matRowsFrom]
    congr 1
    rw [← materializeData_eq_from headings H W vs (j + 1)]
    apply List.map_congr_left
    intro r hr
    have harith : j + (r + 1) + H + 1 = j + 1 + r + H + 1 := by omega
    rw [harith]

theorem materializeData_eq (headings : List Value) (data : List (List Value))
    (H W : Nat) :
    materializeData headings data H W = matRowsFrom headings H W 0 data := by
  unfold materializeData
  rw [← materializeData_eq_from headings H W data 0]
  apply List.map_congr_left
  intro r hr
  have harith : r + H + 1 = 0 + r + H + 1 := by omega
  rw [harith]

/-- C2: on a fresh builder over an existing rectangular table, `deleteRows()`
deletes exactly the originally matched physical rows: the remaining sheet is
the heading part followed by precisely the data rows whose materialized row
object fails the predicate, in their original order — the running offset
counter, incremented once per deletion and subtracted from each recorded
physical row number, lands every deletion on the intended original row.  Both
caches are discarded and the store is flushed afterwards. -/
theorem deleteRows_deletes_exactly_matched (g : List (List Cell))
    (H W fl : Nat) (P : RowObj → Bool)
    (hH : 1 ≤ H) (hlen : H < g.length) (hrect : ∀ row ∈ g, row.length = W) :
    deleteRowsB ⟨some g, fl⟩ (freshBuilder H (some P))
      = some (freshBuilder H (some P),
          ⟨some (g.take H ++ specDeleteData P
              ((g.getD (H - 1) []).map Cell.value) H W 0 (g.drop H)),
            fl + 1⟩) := by
  have hval := getValuesB_fresh_eq g H W fl (some P) hH hlen hrect
  unfold deleteRowsB getRowsB
  rw [hval]
  simp only [freshBuilder]
  have hgv : gridValues (g.drop H)
      = (g.drop H).map (fun row => row.map Cell.value) := rfl
  rw [materializeData_eq, hgv]
  cases hrows : (matRowsFrom ((g.getD (H - 1) []).map Cell.value) H W 0
      ((g.drop H).map (fun row => row.map Cell.value))).filter P with
  | nil =>
    have hsd := specDeleteData_of_no_match P
      ((g.getD (H - 1) []).map Cell.value) H W (g.drop H) 0 hrows
    simp only [clearCacheB]
    rw [hsd, List.take_append_drop]
  | cons r rs =>
    have hpre : (g.take H).length + 0 = H + 0 := by
      simp only [List.length_take]
      omega
    have hmain := deleteLoop_matched P ((g.getD (H - 1) []).map Cell.value)
      H W (g.drop H) (g.take H) 0 0 hpre
    rw [List.take_append_drop, hrows] at hmain
    simp only [hmain]
    simp [clearCacheB, freshBuilder]

theorem getD_range_map {α : Type} (F : Nat → α) (d : α) (n k : Nat) :
    ((List.range n).map F).getD k d = if k < n then F k else d := by
  rw [List.getD_eq_getElem?_getD, List.getElem?_map]
  by_cases h : k < n
  · rw [List.getElem?_range h, if_pos h]
    rfl
  · rw [List.getElem?_eq_none (by simpa using Nat.not_lt.1 h), if_neg h]
    rfl

theorem setIdxExtend_get_self (l : List Written) (j : Nat) (w : Written) :
    (setIdxExtend l j w).get? j = some w := by
  by_cases hj : j < l.length
  · rw [setIdxExtend, if_pos hj, List.get?_eq_getElem?,
      List.getElem?_set_self hj]
  · rw [setIdxExtend, if_neg hj, List.get?_eq_getElem?, List.append_assoc,
      List.getElem?_append_right (by omega),
      List.getElem?_append_right (by simp),
      List.length_replicate, Nat.sub_self]
    rfl

theorem setIdxExtend_get_of_some_ne (l : List Written) (j k : Nat)
    (w w' : Written) (hne : k ≠ j) (hk : l.get? k = some w') :
    (setIdxExtend l j w).get? k = some w' := by
  have hkl : k < l.length := by
    by_contra hc
    rw [List.get?_eq_getElem?, List.getElem?_eq_none (by omega)] at hk
    cases hk
  rw [List.get?_eq_getElem?] at hk
  by_cases hj : j < l.length
  · rw [setIdxExtend, if_pos hj, List.get?_eq_getElem?,
      List.getElem?_set_ne (Ne.symm hne)]
    exact hk
  · rw [setIdxExtend, if_neg hj, List.get?_eq_getElem?, List.append_assoc,
      List.getElem?_append, if_pos hkl]
    exact hk

theorem setIdxExtend_get_other (l : List Written) (j k : Nat) (w : Written)
    (hne : k ≠ j) :
    (setIdxExtend l j w).get? k = l.get? k
    ∨ (setIdxExtend l j w).get? k = some (.val (.str "")) := by
  by_cases hj : j < l.length
  · left
    rw [setIdxExtend, if_pos hj, List.get?_eq_getElem?,
      List.getElem?_set_ne (Ne.symm hne), ← List.get?_eq_getElem?]
  · by_cases hkl : k < l.length
    · left
      rw [setIdxExtend, if_neg hj, List.get?_eq_getElem?, List.append_assoc,
        List.getElem?_append, if_pos hkl, ← List.get?_eq_getElem?]
    · by_cases hkj : k < j
      · right
        rw [setIdxExtend, if_neg hj, List.get?_eq_getElem?, List.append_assoc,
          List.getElem?_append_right (by omega),
          List.getElem?_append,
          if_pos (by rw [List.length_replicate]; omega),
          List.getElem?_replicate, if_pos (by omega)]
      · left
        have h1 : (setIdxExtend l j w).get? k = none := by
          rw [setIdxExtend, if_neg hj, List.get?_eq_getElem?,
            List.append_assoc, List.getElem?_append_right (by omega)]
          refine List.getElem?_eq_none ?_
          simp only [List.length_append, List.length_replicate,
            List.length_cons, List.length_nil]
          omega
        have h2 : l.get? k = none := by
          rw [List.get?_eq_getElem?]
          exact List.getElem?_eq_none (by omega)
        rw [h1, h2]

theorem restoreFormulas_zero (oldRow : List Cell) (av : List Written) :
    restoreFormulas oldRow 0 av = av := rfl

theorem restoreFormulas_succ (oldRow : List Cell) (av : List Written)
    (n : Nat) :
    restoreFormulas oldRow (n + 1) av
      = (if (oldRow.getD n blankCell).formulaStr ≠ "" then
          setIdxExtend (restoreFormulas oldRow n av) n
            (.fml ((oldRow.getD n blankCell).formulaStr))
        else restoreFormulas oldRow n av) := by
  unfold restoreFormulas
  rw [List.range_succ, List.foldl_append, List.foldl_cons, List.foldl_nil]

theorem restoreFormulas_get_formula (oldRow : List Cell) (av : List Written) :
    ∀ (cols k : Nat), k < cols →
      (oldRow.getD k blankCell).formulaStr ≠ "" →
      (restoreFormulas oldRow cols av).get? k
        = some (.fml ((oldRow.getD k blankCell).formulaStr))
  | 0, k, hk, _ => absurd hk (Nat.not_lt_zero k)
  | n + 1, k, hk, hf => by
    rw [restoreFormulas_succ]
    by_cases hkn : k = n
    · subst hkn
      rw [if_pos hf]
      exact setIdxExtend_get_self _ _ _
    · have hkn2 : k < n := by omega
      by_cases hfn : (oldRow.getD n blankCell).formulaStr ≠ ""
      · rw [if_pos hfn]
        exact setIdxExtend_get_of_some_ne _ _ _ _ _ hkn
          (restoreFormulas_get_formula oldRow av n k hkn2 hf)
      · rw [if_neg hfn]
        exact restoreFormulas_get_formula oldRow av n k hkn2 hf

theorem restoreFormulas_get_other (oldRow : List Cell) (av : List Written)
    (hav : ∀ w ∈ av, ∃ v, w = .val v) :
    ∀ (cols k : Nat),
      ((oldRow.getD k blankCell).formulaStr = "" ∨ cols ≤ k) →
      (restoreFormulas oldRow cols av).get? k = none
      ∨ ∃ v, (restoreFormulas oldRow cols av).get? k = some (.val v)
  | 0, k, _ => by
    rw [restoreFormulas_zero]
    cases hk : av.get? k with
    | none => exact Or.inl rfl
    | some w =>
      rcases hav w (List.get?_mem hk) with ⟨v, rfl⟩
      exact Or.inr ⟨v, rfl⟩
  | n + 1, k, hcond => by
    rw [restoreFormulas_succ]
    have hcond2 : (oldRow.getD k blankCell).formulaStr = "" ∨ n ≤ k := by
      rcases hcond with h | h
      · exact Or.inl h
      · exact Or.inr (by omega)
    by_cases hfn : (oldRow.getD n blankCell).formulaStr ≠ ""
    · rw [if_pos hfn]
      have hkn : k ≠ n := by
        intro h
        subst h
        rcases hcond with h | h
        · exact hfn h
        · omega
      rcases setIdxExtend_get_other (restoreFormulas oldRow n av) n k
          (.fml ((oldRow.getD n blankCell).formulaStr)) hkn with h | h
      · rw [h]
        exact restoreFormulas_get_other oldRow av hav n k hcond2
      · rw [h]
        exact Or.inr ⟨_, rfl⟩
    · rw [if_neg hfn]
      exact restoreFormulas_get_other oldRow av hav n k hcond2

theorem restoreFormulas_noop (oldRow : List Cell) (av : List Written) :
    ∀ cols : Nat,
      (∀ k, k < cols → (oldRow.getD k blankCell).formulaStr = "") →
      restoreFormulas oldRow cols av = av
  | 0, _ => rfl
  | n + 1, h => by
    rw [restoreFormulas_succ, if_neg (not_not.mpr (h n (Nat.lt_succ_self n)))]
    exact restoreFormulas_noop oldRow av n (fun k hk => h k (by omega))

theorem writeCells_length (oldRow : List Cell) (ws : List Written) :
    (writeCells oldRow ws).length = max oldRow.length ws.length := by
  unfold writeCells
  rw [List.length_map, List.length_range]

theorem writeCells_getD (oldRow : List Cell) (ws : List Written) (k : Nat) :
    (writeCells oldRow ws).getD k blankCell
      = match ws.get? k with
        | some w => applyWrite w (oldRow.getD k blankCell)
        | none => oldRow.getD k blankCell := by
  unfold writeCells
  rw [getD_range_map]
  by_cases hk : k < max oldRow.length ws.length
  · rw [if_pos hk]
  · rw [if_neg hk]
    have h1 : ws.get? k = none := by
      rw [List.get?_eq_getElem?]
      exact List.getElem?_eq_none (by omega)
    have h2 : oldRow.getD k blankCell = blankCell :=
      List.getD_eq_default _ _ (by omega)
    rw [h1, h2]

theorem patchLinks_succ (links : List (Option String)) (ws : List Written)
    (n : Nat) (row : List Cell) :
    patchLinks links ws (n + 1) row
      = (match links.getD n none with
         | some url =>
           (patchLinks links ws n row).set n
             (Cell.lit (writtenText (ws.getD n (.val (.str "")))) (some url))
         | none => patchLinks links ws n row) := by
  unfold patchLinks
  rw [List.range_succ, List.foldl_append, List.foldl_cons, List.foldl_nil]

theorem patchLinks_length (links : List (Option String)) (ws : List Written) :
    ∀ (cols : Nat) (row : List Cell),
      (patchLinks links ws cols row).length = row.length
  | 0, _ => rfl
  | n + 1, row => by
    rw [patchLinks_succ]
    cases links.getD n none with
    | none => exact patchLinks_length links ws n row
    | some url =>
      rw [List.length_set]
      exact patchLinks_length links ws n row

theorem patchLinks_getD (links : List (Option String)) (ws : List Written) :
    ∀ (cols : Nat) (row : List Cell) (k : Nat),
      (∀ i, i < cols → links.getD i none ≠ none → i < row.length) →
      (patchLinks links ws cols row).getD k blankCell
        = if k < cols then
            (match links.getD k none with
             | some url =>
               Cell.lit (writtenText (ws.getD k (.val (.str "")))) (some url)
             | none => row.getD k blankCell)
          else row.getD k blankCell
  | 0, row, k, _ => by rw [if_neg (Nat.not_lt_zero k)]; rfl
  | n + 1, row, k, hlk => by
    rw [patchLinks_succ]
    have hlk2 : ∀ i, i < n → links.getD i none ≠ none → i < row.length :=
      fun i hi => hlk i (by omega)
    by_cases hkn : k = n
    · subst hkn
      cases hl : links.getD k none with
      | none =>
        rw [patchLinks_getD links ws k row k hlk2, if_neg (Nat.lt_irrefl k),
          if_pos (Nat.lt_succ_self k)]
      | some url =>
        have hkr : k < row.length :=
          hlk k (Nat.lt_succ_self k) (by rw [hl]; exact Option.some_ne_none url)
        rw [List.getD_eq_getElem?_getD,
          List.getElem?_set_self (by rw [patchLinks_length]; exact hkr),
          if_pos (Nat.lt_succ_self k)]
        rfl
    · cases hl : links.getD n none with
      | none =>
        rw [patchLinks_getD links ws n row k hlk2]
        by_cases hkn2 : k < n
        · rw [if_pos hkn2, if_pos (by omega)]
        · rw [if_neg hkn2, if_neg (by omega)]
      | some url =>
        rw [List.getD_eq_getElem?_getD,
          List.getElem?_set_ne (by omega : n ≠ k),
          ← List.getD_eq_getElem?_getD,
          patchLinks_getD links ws n row k hlk2]
        by_cases hkn2 : k < n
        · rw [if_pos hkn2, if_pos (by omega)]
        · rw [if_neg hkn2, if_neg (by omega)]

theorem chooseValues_vals (mutRow : RowObj) (ret : Option RowObj) :
    ∀ w ∈ chooseValues mutRow ret, ∃ v, w = .val v := by
  intro w hw
  unfold chooseValues at hw
  rcases List.mem_map.1 hw with ⟨v, _, rfl⟩
  exact ⟨v, rfl⟩

theorem get?_map_getD {α β : Type} (l : List α) (F : α → β) (d : α) (k : Nat)
    (hk : k < l.length) : (l.map F).get? k = some (F (l.getD k d)) := by
  rw [List.get?_eq_getElem?, List.getElem?_map, List.getElem?_eq_getElem hk,
    getD_eq_of_lt l d k hk]
  rfl

theorem links_getD_bound (oldRow : List Cell) (cols : Nat)
    (row2 : List Cell) (hlen : oldRow.length ≤ row2.length) :
    ∀ i, i < cols →
      ((List.range cols).map
        (fun i => (oldRow.getD i blankCell).linkUrl)).getD i none ≠ none →
      i < row2.length := by
  intro i hi hne
  rw [getD_range_map, if_pos hi] at hne
  have hi2 : i < oldRow.length := by
    by_contra hc
    rw [List.getD_eq_default _ _ (by omega)] at hne
    exact hne rfl
  omega

/-- Per-row formula preservation: the per-row body of `updateRows` leaves the
formula text of every column position unchanged — positions with a non-empty
formula get it spliced back into the value array, positions without one are
only ever written with plain values. -/
theorem rowTransform_formulaStr (f : UpdateFn) (r : RowObj) (m : RowMeta)
    (oldRow : List Cell) (hlen : oldRow.length ≤ m.cols) (k : Nat) :
    ((rowTransform f r m oldRow).getD k blankCell).formulaStr
      = (oldRow.getD k blankCell).formulaStr := by
  unfold rowTransform
  rw [patchLinks_getD _ _ _ _ _ (links_getD_bound oldRow m.cols _
    (by rw [writeCells_length]; omega))]
  by_cases hk : k < m.cols
  · rw [if_pos hk, getD_range_map, if_pos hk]
    cases hl : (oldRow.getD k blankCell).linkUrl with
    | some url =>
      have hf : (oldRow.getD k blankCell).formulaStr = "" := by
        cases hc : oldRow.getD k blankCell with
        | lit v l => simp [Cell.formulaStr]
        | formula fm d => rw [hc] at hl; cases hl
      rw [hf]
      rfl
    | none =>
      rw [writeCells_getD]
      by_cases hf : (oldRow.getD k blankCell).formulaStr ≠ ""
      · rw [restoreFormulas_get_formula oldRow _ m.cols k hk hf]
        rfl
      · push_neg at hf
        rcases restoreFormulas_get_other oldRow _ (chooseValues_vals _ _)
            m.cols k (Or.inl hf) with h | ⟨v, h⟩
        · rw [h]
        · rw [h, hf]
          rfl
  · rw [if_neg hk, writeCells_getD]
    have hkold : oldRow.getD k blankCell = blankCell :=
      List.getD_eq_default _ _ (by omega)
    rcases restoreFormulas_get_other oldRow _ (chooseValues_vals _ _)
        m.cols k (Or.inr (by omega)) with h | ⟨v, h⟩
    · rw [h]
    · rw [h, hkold]
      rfl

/-- Per-row value write-back on a formula-free row: every column up to the
width receives the chosen value (in heading order, metadata stripped), as a
literal cell, with the original hyperlink reattached where one existed. -/
theorem rowTransform_no_formulas (f : UpdateFn) (r : RowObj) (m : RowMeta)
    (oldRow : List Cell)
    (hnf : ∀ k, (oldRow.getD k blankCell).formulaStr = "")
    (hcl : (chosenVals (f r).fst (f r).snd).length = m.cols)
    (k : Nat) (hk : k < m.cols) :
    (rowTransform f r m oldRow).getD k blankCell
      = Cell.lit ((chosenVals (f r).fst (f r).snd).getD k (.str ""))
          ((oldRow.getD k blankCell).linkUrl) := by
  have hws : (chooseValues (f r).fst (f r).snd).get? k
      = some (.val ((chosenVals (f r).fst (f r).snd).getD k (.str ""))) :=
    get?_map_getD _ _ _ k (by omega)
  have hwsD : (chooseValues (f r).fst (f r).snd).getD k (.val (.str ""))
      = .val ((chosenVals (f r).fst (f r).snd).getD k (.str "")) := by
    rw [List.getD_eq_getElem?_getD, ← List.get?_eq_getElem?, hws]
    rfl
  unfold rowTransform
  rw [patchLinks_getD _ _ _ _ _ (links_getD_bound oldRow m.cols _
    (by rw [writeCells_length]; omega))]
  rw [if_pos hk, getD_range_map, if_pos hk]
  rw [restoreFormulas_noop oldRow _ m.cols (fun i _ => hnf i)]
  cases hl : (oldRow.getD k blankCell).linkUrl with
  | some url =>
    rw [hwsD]
    rfl
  | none =>
    rw [writeCells_getD, hws]
    rfl

theorem getRowAt_append (A : List (List Cell)) (x : List Cell)
    (xs : List (List Cell)) : getRowAt (A ++ x :: xs) (A.length + 1) = x := by
  unfold getRowAt
  rw [Nat.add_sub_cancel, List.getD_eq_getElem?_getD,
    List.getElem?_append_right (Nat.le_refl _), Nat.sub_self]
  simp

theorem set_append_cons {α : Type} : ∀ (A : List α) (x y : α) (xs : List α),
    (A ++ x :: xs).set A.length y = A ++ y :: xs
  | [], _, _, _ => rfl
  | a :: A, x, y, xs => by
    simp only [List.cons_append, List.length_cons, List.set_cons_succ]
    rw [set_append_cons A x y xs]

theorem setRowAt_append (A : List (List Cell)) (x y : List Cell)
    (xs : List (List Cell)) :
    setRowAt (A ++ x :: xs) (A.length + 1) y = A ++ y :: xs := by
  unfold setRowAt
  rw [Nat.add_sub_cancel]
  exact set_append_cons A x y xs

/-- The core invariant of the update loop: every matched row reads from and
writes back to its own physical row, so processing in materialization order
transforms exactly the matched data rows and leaves everything else. -/
theorem updateLoop_matched (P : RowObj → Bool) (f : UpdateFn)
    (headings : List Value) (H W : Nat) :
    ∀ (cxs pre : List (List Cell)) (j : Nat),
      pre.length = H + j →
      updateLoop f ((matRowsFrom headings H W j
          (cxs.map (fun row => row.map Cell.value))).filter P) (pre ++ cxs)
        = some (pre ++ specUpdateData P f headings H W j cxs)
  | [], pre, j, _ => by
    simp [matRowsFrom, specUpdateData, updateLoop]
  | x :: xs, pre, j, hinv => by
    simp only [List.map_cons, matRowsFrom, specUpdateData]
    by_cases hP : P (mkRowObj headings (x.map Cell.value) ⟨j + H + 1, W⟩)
    · rw [List.filter_cons_of_pos (by simpa using hP), if_pos hP]
      simp only [updateLoop, mkRowObj_meta]
      have hrow : j + H + 1 = pre.length + 1 := by omega
      rw [hrow, getRowAt_append, setRowAt_append]
      have ih := updateLoop_matched P f headings H W xs
        (pre ++ [rowTransform f
          (mkRowObj headings (x.map Cell.value) ⟨j + H + 1, W⟩)
          ⟨j + H + 1, W⟩ x]) (j + 1)
        (by simp only [List.length_append, List.length_cons,
              List.length_nil]; omega)
      rw [List.append_assoc, List.singleton_append] at ih
      rw [hrow] at ih
      rw [ih, List.append_assoc, List.singleton_append]
    · rw [List.filter_cons_of_neg (by simpa using hP), if_neg hP]
      have ih := updateLoop_matched P f headings H W xs (pre ++ [x]) (j + 1)
        (by simp only [List.length_append, List.length_cons,
              List.length_nil]; omega)
      rw [List.append_assoc, List.singleton_append] at ih
      rw [ih, List.append_assoc, List.singleton_append]

theorem specUpdateData_of_no_match (P : RowObj → Bool) (f : UpdateFn)
    (headings : List Value) (H W : Nat) :
    ∀ (cxs : List (List Cell)) (j : Nat),
      (matRowsFrom headings H W j
        (cxs.map (fun row => row.map Cell.value))).filter P = [] →
      specUpdateData P f headings H W j cxs = cxs
  | [], _, _ => rfl
  | x :: xs, j, h => by
    simp only [List.map_cons, matRowsFrom] at h
    by_cases hP : P (mkRowObj headings (x.map Cell.value) ⟨j + H + 1, W⟩)
    · rw [List.filter_cons_of_pos (by simpa using hP)] at h
      exact absurd h (List.cons_ne_nil _ _)
    · rw [List.filter_cons_of_neg (by simpa using hP)] at h
      simp only [specUpdateData, if_neg hP]
      rw [specUpdateData_of_no_match P f headings H W xs (j + 1) h]

/-- Full characterization of `updateRows` on a fresh builder over an
existing rectangular sheet: every matched data row is replaced by its
write-back, everything else (including the heading part) is untouched, both
caches are discarded and the store is flushed. -/
theorem updateRowsB_fresh_eq (g : List (List Cell)) (H W fl : Nat)
    (P : RowObj → Bool) (f : UpdateFn)
    (hH : 1 ≤ H) (hlen : H < g.length) (hrect : ∀ row ∈ g, row.length = W) :
    updateRowsB ⟨some g, fl⟩ (freshBuilder H (some P)) f
      = some (freshBuilder H (some P),
          ⟨some (g.take H ++ specUpdateData P f
              ((g.getD (H - 1) []).map Cell.value) H W 0 (g.drop H)),
            fl + 1⟩) := by
  have hval := getValuesB_fresh_eq g H W fl (some P) hH hlen hrect
  unfold updateRowsB getRowsB
  rw [hval]
  simp only [freshBuilder]
  have hgv : gridValues (g.drop H)
      = (g.drop H).map (fun row => row.map Cell.value) := rfl
  rw [materializeData_eq, hgv]
  cases hrows : (matRowsFrom ((g.getD (H - 1) []).map Cell.value) H W 0
      ((g.drop H).map (fun row => row.map Cell.value))).filter P with
  | nil =>
    have hsd := specUpdateData_of_no_match P f
      ((g.getD (H - 1) []).map Cell.value) H W (g.drop H) 0 hrows
    simp only [clearCacheB]
    rw [hsd, List.take_append_drop]
  | cons r rs =>
    have hpre : (g.take H).length = H + 0 := by
      simp only [List.length_take]
      omega
    have hmain := updateLoop_matched P f ((g.getD (H - 1) []).map Cell.value)
      H W (g.drop H) (g.take H) 0 hpre
    rw [List.take_append_drop, hrows] at hmain
    simp only [hmain]
    simp [clearCacheB, freshBuilder]

theorem specUpdateData_formulaStr (P : RowObj → Bool) (f : UpdateFn)
    (headings : List Value) (H W : Nat) :
    ∀ (cxs : List (List Cell)) (j : Nat), (∀ row ∈ cxs, row.length ≤ W) →
      ∀ k c,
        (((specUpdateData P f headings H W j cxs).getD k []).getD c
            blankCell).formulaStr
          = ((cxs.getD k []).getD c blankCell).formulaStr
  | [], j, _, k, c => by simp [specUpdateData]
  | x :: xs, j, hlen, k, c => by
    simp only [specUpdateData]
    cases k with
    | zero =>
      simp only [List.getD_cons_zero]
      by_cases hP : P (mkRowObj headings (x.map Cell.value) ⟨j + H + 1, W⟩)
      · rw [if_pos hP]
        exact rowTransform_formulaStr f _ _ x
          (hlen x (List.mem_cons_self x xs)) c
      · rw [if_neg hP]
    | succ k =>
      simp only [List.getD_cons_succ]
      exact specUpdateData_formulaStr P f headings H W xs (j + 1)
        (fun row hr => hlen row (List.mem_cons_of_mem _ hr)) k c

/-- C3: for every store state reachable by `updateRows(updateFn)` from a
fresh builder over an existing rectangular sheet, every cell holds the same
formula text as before the call: for each column position whose cell held a
non-empty formula, the formula string is spliced back into the value array
before the bulk write, and positions without a formula only ever receive
plain values — so formulas survive regardless of what the callback wrote
into the in-memory row values. -/
theorem updateRows_preserves_formulas (g : List (List Cell)) (H W fl : Nat)
    (P : RowObj → Bool) (f : UpdateFn) (b2 : Builder) (st2 : Store)
    (hH : 1 ≤ H) (hlen : H < g.length) (hrect : ∀ row ∈ g, row.length = W)
    (hrun : updateRowsB ⟨some g, fl⟩ (freshBuilder H (some P)) f
      = some (b2, st2)) :
    ∀ p c, (cellAt (st2.mSheet.getD []) p c).formulaStr
      = (cellAt g p c).formulaStr := by
  rw [updateRowsB_fresh_eq g H W fl P f hH hlen hrect] at hrun
  have hst : st2 = ⟨some (g.take H ++ specUpdateData P f
      ((g.getD (H - 1) []).map Cell.value) H W 0 (g.drop H)), fl + 1⟩ := by
    injection hrun with hpair
    exact (congrArg Prod.snd hpair).symm
  subst hst
  intro p c
  show ((((g.take H ++ specUpdateData P f
      ((g.getD (H - 1) []).map Cell.value) H W 0 (g.drop H)).getD (p - 1)
        []).getD (c - 1) blankCell)).formulaStr
    = ((g.getD (p - 1) []).getD (c - 1) blankCell).formulaStr
  rcases Nat.lt_or_ge (p - 1) H with hp | hp
  · have htake : (g.take H ++ specUpdateData P f
        ((g.getD (H - 1) []).map Cell.value) H W 0 (g.drop H)).getD (p - 1) []
        = g.getD (p - 1) [] := by
      rw [List.getD_eq_getElem?_getD, List.getElem?_append,
        if_pos (by rw [List.length_take]; omega), List.getElem?_take,
        if_pos hp, ← List.getD_eq_getElem?_getD]
    rw [htake]
  · have happ : (g.take H ++ specUpdateData P f
        ((g.getD (H - 1) []).map Cell.value) H W 0 (g.drop H)).getD (p - 1) []
        = (specUpdateData P f ((g.getD (H - 1) []).map Cell.value) H W 0
            (g.drop H)).getD (p - 1 - H) [] := by
      rw [List.getD_eq_getElem?_getD,
        List.getElem?_append_right (by rw [List.length_take]; omega),
        ← List.getD_eq_getElem?_getD]
      congr 1
      rw [List.length_take]
      omega
    rw [happ, specUpdateData_formulaStr P f _ H W (g.drop H) 0
      (fun row hr => Nat.le_of_eq (hrect row (List.mem_of_mem_drop hr)))
      (p - 1 - H) (c - 1)]
    have hdropD : (g.drop H).getD (p - 1 - H) [] = g.getD (p - 1) [] := by
      rw [List.getD_eq_getElem?_getD, List.getElem?_drop,
        ← List.getD_eq_getElem?_getD]
      congr 1
      omega
    rw [hdropD]

/-- Witness for C3: the example sheet holds a formula in column `B`; the
updater writes the literal 99 into every in-memory column, yet after
`updateRows` the store still holds `=SUM(1,2)` in that cell. -/
theorem updateRows_preserves_formulas_witness :
    (1 ≤ 1 ∧ 1 < updateExampleGrid.length
      ∧ (∀ row ∈ updateExampleGrid, row.length = 2)
      ∧ updateRowsB ⟨some updateExampleGrid, 0⟩
          (freshBuilder 1 (some (fun _ => true))) overwriteUpdateFn
        = some (freshBuilder 1 (some (fun _ => true)),
            ⟨some [[.lit (.str "A") none, .lit (.str "B") none],
                   [.lit (.num 99) (some "http://u"),
                    .formula "=SUM(1,2)" (.num 3)]], 1⟩))
    ∧ ∀ p c,
      (cellAt ((⟨some [[.lit (.str "A") none, .lit (.str "B") none],
              [.lit (.num 99) (some "http://u"),
               .formula "=SUM(1,2)" (.num 3)]], 1⟩ : Store).mSheet.getD [])
          p c).formulaStr
        = (cellAt updateExampleGrid p c).formulaStr :=
  ⟨⟨by decide, by decide, by decide, by rfl⟩,
    updateRows_preserves_formulas updateExampleGrid 1 2 0 (fun _ => true)
      overwriteUpdateFn _ _ (by decide) (by decide) (by decide) (by rfl)⟩

theorem mem_matRowsFrom (headings : List Value) (H W : Nat) :
    ∀ (vs : List (List Value)) (j : Nat) (r : RowObj),
      r ∈ matRowsFrom headings H W j vs →
      ∃ k, k < vs.length
        ∧ r = mkRowObj headings (vs.getD k []) ⟨j + k + H + 1, W⟩
  | [], _, r, h => absurd h (List.not_mem_nil r)
  | v :: vs, j, r, h => by
    rcases List.mem_cons.1 h with h | h
    · refine ⟨0, Nat.succ_pos _, ?_⟩
      rw [h, List.getD_cons_zero]
      have harith : j + H + 1 = j + 0 + H + 1 := by omega
      rw [harith]
    · rcases mem_matRowsFrom headings H W vs (j + 1) r h with ⟨k, hk, hre⟩
      refine ⟨k + 1, by simp only [List.length_cons]; omega, ?_⟩
      rw [hre, List.getD_cons_succ]
      have harith : j + 1 + k + H + 1 = j + (k + 1) + H + 1 := by omega
      rw [harith]

theorem specUpdateData_getD (P : RowObj → Bool) (f : UpdateFn)
    (headings : List Value) (H W : Nat) :
    ∀ (cxs : List (List Cell)) (j k : Nat), k < cxs.length →
      (specUpdateData P f headings H W j cxs).getD k []
        = if P (mkRowObj headings ((cxs.getD k []).map Cell.value)
              ⟨j + k + H + 1, W⟩)
          then rowTransform f
            (mkRowObj headings ((cxs.getD k []).map Cell.value)
              ⟨j + k + H + 1, W⟩)
            ⟨j + k + H + 1, W⟩ (cxs.getD k [])
          else cxs.getD k []
  | [], _, k, hk => absurd hk (by simp)
  | x :: xs, j, 0, _ => by
    simp only [specUpdateData, List.getD_cons_zero]
    have harith : j + H + 1 = j + 0 + H + 1 := by omega
    rw [harith]
  | x :: xs, j, k + 1, hk => by
    simp only [specUpdateData, List.getD_cons_succ]
    rw [specUpdateData_getD P f headings H W xs (j + 1) k
      (by simpa using Nat.lt_of_succ_lt_succ hk)]
    have harith : j + 1 + k + H + 1 = j + (k + 1) + H + 1 := by omega
    rw [harith]

/-- C4 (amended claim): for every matched row, `updateRows(updateFn)` honours
the dual callback contract with one qualification the original claim misses:
the returned object's values are used only when the returned object still
carries the `__meta` field; when the callback returns nothing — or returns an
object without `__meta` — the original (possibly in-place-mutated) row's
values are written instead.  In both cases `__meta` is stripped, and on
formula-free rows the chosen values land in the row's cells verbatim (with
original hyperlinks reattached). -/
theorem updateRows_dual_contract (g : List (List Cell)) (H W fl : Nat)
    (P : RowObj → Bool) (f : UpdateFn) (b2 : Builder) (st2 : Store)
    (hH : 1 ≤ H) (hlen : H < g.length) (hrect : ∀ row ∈ g, row.length = W)
    (hnf : ∀ row ∈ g.drop H, ∀ cell ∈ row, cell.formulaStr = "")
    (hvl : ∀ r ∈ (matRowsFrom ((g.getD (H - 1) []).map Cell.value) H W 0
        (gridValues (g.drop H))).filter P,
      (chosenVals (f r).fst (f r).snd).length = W)
    (hrun : updateRowsB ⟨some g, fl⟩ (freshBuilder H (some P)) f
      = some (b2, st2)) :
    ∀ r ∈ (matRowsFrom ((g.getD (H - 1) []).map Cell.value) H W 0
        (gridValues (g.drop H))).filter P,
      ∀ m, r.meta = some m → ∀ c, c < W →
        cellAt (st2.mSheet.getD []) m.row (c + 1)
          = Cell.lit ((chosenVals (f r).fst (f r).snd).getD c (.str ""))
              ((cellAt g m.row (c + 1)).linkUrl) := by
  rw [updateRowsB_fresh_eq g H W fl P f hH hlen hrect] at hrun
  have hst : st2 = ⟨some (g.take H ++ specUpdateData P f
      ((g.getD (H - 1) []).map Cell.value) H W 0 (g.drop H)), fl + 1⟩ := by
    injection hrun with hpair
    exact (congrArg Prod.snd hpair).symm
  subst hst
  intro r hr m hm c hc
  have hrP := List.of_mem_filter hr
  rcases mem_matRowsFrom _ H W _ 0 r (List.mem_of_mem_filter hr)
    with ⟨k, hk, hre⟩
  rw [gridValues_getD] at hre
  have hkd : k < (g.drop H).length := by
    rw [List.length_drop]
    unfold gridValues at hk
    rw [List.length_map, List.length_drop] at hk
    exact hk
  have hmeta : m = ⟨0 + k + H + 1, W⟩ := by
    rw [hre, mkRowObj_meta] at hm
    injection hm with h
    exact h.symm
  subst hmeta
  have hrowmem : (g.drop H).getD k [] ∈ g.drop H := by
    rw [getD_eq_of_lt _ _ k hkd]
    exact List.get_mem _ _ _
  -- the physical row of the result
  have happ : (g.take H ++ specUpdateData P f
      ((g.getD (H - 1) []).map Cell.value) H W 0 (g.drop H)).getD
        (0 + k + H + 1 - 1) []
      = (specUpdateData P f ((g.getD (H - 1) []).map Cell.value) H W 0
          (g.drop H)).getD k [] := by
    rw [List.getD_eq_getElem?_getD,
      List.getElem?_append_right (by rw [List.length_take]; omega),
      ← List.getD_eq_getElem?_getD]
    congr 1
    rw [List.length_take]
    omega
  show ((g.take H ++ specUpdateData P f
      ((g.getD (H - 1) []).map Cell.value) H W 0 (g.drop H)).getD
        (0 + k + H + 1 - 1) []).getD (c + 1 - 1) blankCell = _
  rw [happ, specUpdateData_getD P f _ H W (g.drop H) 0 k hkd, ← hre,
    if_pos hrP]
  have hnf2 : ∀ i, (((g.drop H).getD k []).getD i blankCell).formulaStr
      = "" := by
    intro i
    by_cases hi : i < ((g.drop H).getD k []).length
    · refine hnf _ hrowmem _ ?_
      rw [getD_eq_of_lt _ _ i hi]
      exact List.get_mem _ _ _
    · rw [List.getD_eq_default _ _ (by omega)]
      rfl
  have hT2 := rowTransform_no_formulas f r ⟨0 + k + H + 1, W⟩
    ((g.drop H).getD k []) hnf2 (hvl r hr) c hc
  rw [Nat.add_sub_cancel]
  rw [hT2]
  have hcell : cellAt g (0 + k + H + 1) (c + 1)
      = ((g.drop H).getD k []).getD c blankCell := by
    unfold cellAt
    rw [Nat.add_sub_cancel, Nat.add_sub_cancel]
    congr 1
    rw [List.getD_eq_getElem?_getD, List.getD_eq_getElem?_getD,
      List.getElem?_drop]
    have harith : 0 + k + H = H + k := by omega
    rw [harith]
  rw [hcell]

/-- Witness for C4's amended theorem: formula-free sheet, all rows matched,
and a callback returning a fresh object that carries `__meta` with value 7
for heading `A`; the value 7 is written back, the hyperlink preserved. -/
theorem updateRows_dual_contract_witness :
    (1 ≤ 1 ∧ 1 < dualExampleGrid.length
      ∧ (∀ row ∈ dualExampleGrid, row.length = 1)
      ∧ (∀ row ∈ dualExampleGrid.drop 1, ∀ cell ∈ row,
          cell.formulaStr = "")
      ∧ (∀ r ∈ (matRowsFrom ((dualExampleGrid.getD 0 []).map Cell.value)
            1 1 0 (gridValues (dualExampleGrid.drop 1))).filter
              (fun _ => true),
          (chosenVals (dualUpdateFn r).fst (dualUpdateFn r).snd).length = 1)
      ∧ updateRowsB ⟨some dualExampleGrid, 0⟩
          (freshBuilder 1 (some (fun _ => true))) dualUpdateFn
        = some (freshBuilder 1 (some (fun _ => true)),
            ⟨some [[.lit (.str "A") none],
                   [.lit (.num 7) (some "http://w")]], 1⟩))
    ∧ ∀ r ∈ (matRowsFrom ((dualExampleGrid.getD 0 []).map Cell.value) 1 1 0
        (gridValues (dualExampleGrid.drop 1))).filter (fun _ => true),
      ∀ m, r.meta = some m → ∀ c, c < 1 →
        cellAt ((⟨some [[.lit (.str "A") none],
            [.lit (.num 7) (some "http://w")]], 1⟩ : Store).mSheet.getD [])
          m.row (c + 1)
          = Cell.lit ((chosenVals (dualUpdateFn r).fst
              (dualUpdateFn r).snd).getD c (.str ""))
            ((cellAt dualExampleGrid m.row (c + 1)).linkUrl) :=
  ⟨⟨by decide, by decide, by decide, by decide, by decide, by rfl⟩,
    updateRows_dual_contract dualExampleGrid 1 1 0 (fun _ => true)
      dualUpdateFn _ _ (by decide) (by decide) (by decide) (by decide)
      (by decide) (by rfl)⟩

/-- Counterexample to C4 as stated: the callback returns an object `{A: 7}`
that does not carry `__meta`; the claim says the returned object's values
are written back, but the code's `updatedRow && updatedRow.__meta` guard
rejects it and writes the original row's value 5 instead — the stored cell
still holds 5, not 7. -/
theorem updateRows_returned_object_counterexample :
    updateRowsB ⟨some dualExampleGrid, 0⟩
        (freshBuilder 1 (some (fun _ => true))) metalessUpdateFn
      = some (freshBuilder 1 (some (fun _ => true)),
          ⟨some [[.lit (.str "A") none],
                 [.lit (.num 5) (some "http://w")]], 1⟩)
    ∧ Value.num 5 ≠ Value.num 7 := ⟨by rfl, by decide⟩

/-- Witness for C2 at the example of the claim: matched rows recorded at
physical positions 3, 5 and 7; exactly those three original rows are removed
and the three `keep` rows survive. -/
theorem deleteRows_deletes_exactly_matched_witness :
    (1 ≤ 1 ∧ 1 < deleteExampleGrid.length
      ∧ (∀ row ∈ deleteExampleGrid, row.length = 1))
    ∧ deleteRowsB ⟨some deleteExampleGrid, 0⟩
        (freshBuilder 1 (some deletePredicate))
      = some (freshBuilder 1 (some deletePredicate),
          ⟨some (deleteExampleGrid.take 1 ++ specDeleteData deletePredicate
              ((deleteExampleGrid.getD 0 []).map Cell.value) 1 1 0
              (deleteExampleGrid.drop 1)),
            0 + 1⟩) :=
  ⟨⟨by decide, by decide, by decide⟩,
    deleteRows_deletes_exactly_matched deleteExampleGrid 1 1 0
      deletePredicate (by decide) (by decide) (by decide)⟩

theorem getHeadingsB_builder (st : Store) (b : Builder) (hs : List Value)
    (b1 : Builder) (h : getHeadingsB st b = some (hs, b1)) :
    b1.sheetValues = b.sheetValues
    ∧ (b.sheetHeadings ≠ [] → b1 = b) := by
  unfold getHeadingsB at h
  by_cases hbe : b.sheetHeadings.isEmpty
  · rw [if_pos hbe] at h
    cases hms : st.mSheet with
    | none => rw [hms] at h; cases h
    | some sh =>
      simp only [hms] at h
      by_cases h0 : lastColumn sh = 0
      · rw [if_pos h0] at h; cases h
      · rw [if_neg h0] at h
        injection h with h2
        rw [Prod.mk.injEq] at h2
        obtain ⟨_, hb⟩ := h2
        subst hb
        refine ⟨rfl, fun hne => ?_⟩
        exact absurd (List.isEmpty_iff.1 hbe) hne
  · rw [if_neg hbe] at h
    injection h with h2
    rw [Prod.mk.injEq] at h2
    obtain ⟨_, hb⟩ := h2
    subst hb
    exact ⟨rfl, fun _ => rfl⟩

/-- C7 (amended claim): every completed `updateRows` or `deleteRows` call
ends in `clearCache()` — both caches are discarded and the buffered writes
are flushed; a completed `insertRows` never invalidates: the row cache is
untouched, no flush happens, and a non-empty heading cache is left exactly as
it was.  (The one divergence from the original claim: `insertRows` calls
`getHeadings()`, which may populate an empty heading cache — see the
counterexample.) -/
theorem cache_invalidation_behaviour (st : Store) (b : Builder) :
    (∀ f b2 st2, updateRowsB st b f = some (b2, st2) →
      b2.sheetValues = none ∧ b2.sheetHeadings = []
        ∧ st2.flushes = st.flushes + 1)
    ∧ (∀ b2 st2, deleteRowsB st b = some (b2, st2) →
      b2.sheetValues = none ∧ b2.sheetHeadings = []
        ∧ st2.flushes = st.flushes + 1)
    ∧ (∀ rows b2 st2, insertRowsB st b rows = some (b2, st2) →
      b2.sheetValues = b.sheetValues ∧ st2.flushes = st.flushes
        ∧ (b.sheetHeadings ≠ [] → b2.sheetHeadings = b.sheetHeadings)) := by
  refine ⟨?_, ?_, ?_⟩
  · intro f b2 st2 h
    unfold updateRowsB at h
    cases hg : getRowsB st b with
    | none => simp only [hg] at h; cases h
    | some p =>
      simp only [hg] at h
      obtain ⟨rows, b1⟩ := p
      cases rows with
      | nil =>
        simp only [clearCacheB] at h
        injection h with h2
        rw [Prod.mk.injEq] at h2
        obtain ⟨hb, hst⟩ := h2
        subst hb; subst hst
        exact ⟨rfl, rfl, rfl⟩
      | cons r rs =>
        cases hms : st.mSheet with
        | none => simp only [hms] at h; cases h
        | some sh =>
          simp only [hms] at h
          cases hul : updateLoop f (r :: rs) sh with
          | none => simp only [hul] at h; cases h
          | some sh2 =>
            simp only [hul] at h
            simp only [clearCacheB] at h
            injection h with h2
            rw [Prod.mk.injEq] at h2
            obtain ⟨hb, hst⟩ := h2
            subst hb; subst hst
            exact ⟨rfl, rfl, rfl⟩
  · intro b2 st2 h
    unfold deleteRowsB at h
    cases hg : getRowsB st b with
    | none => simp only [hg] at h; cases h
    | some p =>
      simp only [hg] at h
      obtain ⟨rows, b1⟩ := p
      cases rows with
      | nil =>
        simp only [clearCacheB] at h
        injection h with h2
        rw [Prod.mk.injEq] at h2
        obtain ⟨hb, hst⟩ := h2
        subst hb; subst hst
        exact ⟨rfl, rfl, rfl⟩
      | cons r rs =>
        cases hms : st.mSheet with
        | none => simp only [hms] at h; cases h
        | some sh =>
          simp only [hms] at h
          cases hdl : deleteLoop (r :: rs) 0 sh with
          | none => simp only [hdl] at h; cases h
          | some sh2 =>
            simp only [hdl] at h
            simp only [clearCacheB] at h
            injection h with h2
            rw [Prod.mk.injEq] at h2
            obtain ⟨hb, hst⟩ := h2
            subst hb; subst hst
            exact ⟨rfl, rfl, rfl⟩
  · intro rows b2 st2 h
    unfold insertRowsB at h
    cases hh : getHeadingsB st b with
    | none => simp only [hh] at h; cases h
    | some p =>
      simp only [hh] at h
      obtain ⟨hs1, b1⟩ := p
      cases hil : insertLoop hs1 rows st.mSheet with
      | none => simp only [hil] at h; cases h
      | some msh2 =>
        simp only [hil] at h
        injection h with h2
        rw [Prod.mk.injEq] at h2
        obtain ⟨hb, hst⟩ := h2
        subst hb; subst hst
        obtain ⟨hv, hne⟩ := getHeadingsB_builder st b hs1 b1 hh
        exact ⟨hv, rfl, fun hn => by rw [hne hn]⟩

/-- Witness for C7's amended theorem: a completed update and delete each
discard both caches and flush once; a completed insert leaves the row cache
and the flush counter alone (on a builder with a populated heading cache, the
heading cache too). -/
theorem cache_invalidation_behaviour_witness :
    ((freshBuilder 1 (some (fun _ => true))).sheetValues = none
      ∧ (freshBuilder 1 (some (fun _ => true))).sheetHeadings = []
      ∧ ((⟨some [[.lit (.str "A") none, .lit (.str "B") none],
             [.lit (.num 99) (some "http://u"),
              .formula "=SUM(1,2)" (.num 3)]], 1⟩ : Store).flushes
          = (⟨some updateExampleGrid, 0⟩ : Store).flushes + 1))
    ∧ ((freshBuilder 1 (some deletePredicate)).sheetValues = none
      ∧ (freshBuilder 1 (some deletePredicate)).sheetHeadings = []
      ∧ ((⟨some (deleteExampleGrid.take 1 ++ specDeleteData deletePredicate
            ((deleteExampleGrid.getD 0 []).map Cell.value) 1 1 0
            (deleteExampleGrid.drop 1)), 1⟩ : Store).flushes
          = (⟨some deleteExampleGrid, 0⟩ : Store).flushes + 1))
    ∧ (({ freshBuilder 1 none with
          sheetHeadings := [Value.str "A"] } : Builder).sheetValues
        = ({ freshBuilder 1 none with
          sheetHeadings := [Value.str "A"] } : Builder).sheetValues
      ∧ ((⟨some [[Cell.lit (.str "A") none]], 0⟩ : Store).flushes
          = (⟨some [[Cell.lit (.str "A") none]], 0⟩ : Store).flushes)
      ∧ (({ freshBuilder 1 none with
            sheetHeadings := [Value.str "A"] } : Builder).sheetHeadings ≠ []
          → ({ freshBuilder 1 none with
              sheetHeadings := [Value.str "A"] } : Builder).sheetHeadings
            = ({ freshBuilder 1 none with
              sheetHeadings := [Value.str "A"] } : Builder).sheetHeadings)) :=
  ⟨((cache_invalidation_behaviour ⟨some updateExampleGrid, 0⟩
        (freshBuilder 1 (some (fun _ => true)))).1 overwriteUpdateFn _ _
      (by rfl)),
   ((cache_invalidation_behaviour ⟨some deleteExampleGrid, 0⟩
        (freshBuilder 1 (some deletePredicate))).2.1 _ _ (by rfl)),
   ((cache_invalidation_behaviour ⟨some [[Cell.lit (.str "A") none]], 0⟩
        { freshBuilder 1 none with sheetHeadings := [Value.str "A"] }).2.2
      [] _ _ (by rfl))⟩

/-- Counterexample to C7 as stated: `insertRows` (even with an empty list of
candidate rows) calls `getHeadings()`, which populates an empty heading
cache from the store — the cached headings are not "left unchanged". -/
theorem insertRows_populates_headings_counterexample :
    (freshBuilder 1 none).sheetHeadings = []
    ∧ insertRowsB ⟨some [[Cell.lit (.str "A") none]], 0⟩
        (freshBuilder 1 none) []
      = some ({ freshBuilder 1 none with sheetHeadings := [Value.str "A"] },
          ⟨some [[Cell.lit (.str "A") none]], 0⟩)
    ∧ ([Value.str "A"] : List Value) ≠ [] := ⟨rfl, rfl, by decide⟩

theorem insertValue_eq_spec (hv : Value) (mv : Option Value) :
    insertValue hv mv = specInsertValue hv mv := by
  unfold insertValue specInsertValue
  by_cases h1 : jsTruthy hv
  · by_cases h2 : truthyOpt mv
    · simp [h1, h2]
    · by_cases h3 : mv = some (.bool false)
      · simp [h1, h2, h3]
      · simp [h1, h2, h3]
  · simp [h1]

theorem getHeadingsB_fresh_eq (g : List (List Cell)) (H fl : Nat)
    (w : Option (RowObj → Bool)) (h0 : lastColumn g ≠ 0) :
    getHeadingsB ⟨some g, fl⟩ (freshBuilder H w)
      = some ((List.range (lastColumn g)).map
          (fun c => ((g.getD (H - 1) []).getD c blankCell).value),
        { freshBuilder H w with
            sheetHeadings := (List.range (lastColumn g)).map
              (fun c => ((g.getD (H - 1) []).getD c blankCell).value) }) := by
  simp only [getHeadingsB, freshBuilder, List.isEmpty_nil, if_true,
    if_neg h0]

theorem insertLoop_eq (hs : List Value) :
    ∀ (rows : List (Option DictObj)) (sh : List (List Cell)),
      insertLoop hs rows (some sh)
        = some (some (sh ++ rows.filterMap
            (fun mr => mr.map (appendedRow hs))))
  | [], sh => by simp [insertLoop]
  | none :: rest, sh => by
    show insertLoop hs rest (some sh) = _
    rw [insertLoop_eq hs rest sh]
    simp only [List.filterMap_cons, Option.map_none']
  | some r :: rest, sh => by
    show insertLoop hs rest (some (sh ++ [appendedRow hs r])) = _
    rw [insertLoop_eq hs rest (sh ++ [appendedRow hs r])]
    simp only [List.filterMap_cons, Option.map_some']
    rw [List.append_assoc, List.singleton_append]

/-- C5 (amended claim): `insertRows` appends, for each non-null candidate,
one positional row whose value at each heading follows the three-way rule —
the candidate's value when truthy and present, `false` when explicitly
`false`, the empty string otherwise (so `0` and `""` are coerced to blank
while `false` round-trips) — with the qualification the original claim
misses: the rule only applies under a truthy heading; a falsy heading (e.g.
a blank heading cell) always yields the empty string, whatever the candidate
holds.  `insertValue` (the code's ternary) coincides with the
specification-side rule `specInsertValue`. -/
theorem insertRows_value_rule (g : List (List Cell)) (H fl : Nat)
    (newRows : List (Option DictObj)) (h0 : lastColumn g ≠ 0) :
    insertRowsB ⟨some g, fl⟩ (freshBuilder H none) newRows
      = some ({ freshBuilder H none with
            sheetHeadings := (List.range (lastColumn g)).map
              (fun c => ((g.getD (H - 1) []).getD c blankCell).value) },
          ⟨some (g ++ newRows.filterMap (fun mr =>
              mr.map (appendedRow ((List.range (lastColumn g)).map
                (fun c => ((g.getD (H - 1) []).getD c blankCell).value))))),
            fl⟩)
    ∧ ∀ hv mv, insertValue hv mv = specInsertValue hv mv := by
  constructor
  · unfold insertRowsB
    simp only [getHeadingsB_fresh_eq g H fl none h0]
    rw [insertLoop_eq]
  · exact insertValue_eq_spec

/-- Witness for C5's amended theorem: headings `[A, B, ""]`; the candidate
`{A: false, "": 5}` round-trips `false` exactly, drops the value 5 keyed by
the blank heading, and a second candidate `{B: 0}` has its 0 coerced to the
empty string; a `null` entry in the list is skipped. -/
theorem insertRows_value_rule_witness :
    lastColumn insertExampleGrid ≠ 0
    ∧ (insertRowsB ⟨some insertExampleGrid, 0⟩ (freshBuilder 1 none)
        [some [("A", Value.bool false), ("", Value.num 5)], none,
         some [("B", Value.num 0)]]
      = some ({ freshBuilder 1 none with
            sheetHeadings := (List.range (lastColumn insertExampleGrid)).map
              (fun c => ((insertExampleGrid.getD 0 []).getD c
                blankCell).value) },
          ⟨some (insertExampleGrid
              ++ [some [("A", Value.bool false), ("", Value.num 5)], none,
                  some [("B", Value.num 0)]].filterMap (fun mr =>
                mr.map (appendedRow
                  ((List.range (lastColumn insertExampleGrid)).map
                    (fun c => ((insertExampleGrid.getD 0 []).getD c
                      blankCell).value))))),
            0⟩)
      ∧ ∀ hv mv, insertValue hv mv = specInsertValue hv mv) :=
  ⟨by decide,
    insertRows_value_rule insertExampleGrid 1 0
      [some [("A", Value.bool false), ("", Value.num 5)], none,
       some [("B", Value.num 0)]] (by decide)⟩

/-- Counterexample to C5 as stated: the heading row holds a blank heading
cell (key `""`), and the candidate maps `""` to the truthy value 5; the
claim's three-way rule picks 5, but the code's `heading && ...` guard makes
every falsy heading yield the empty string — the appended cell is blank. -/
theorem insertRows_falsy_heading_counterexample :
    insertRowsB ⟨some [[Cell.lit (.str "") none]], 0⟩ (freshBuilder 1 none)
        [some [("", Value.num 5)]]
      = some ({ freshBuilder 1 none with sheetHeadings := [Value.str ""] },
          ⟨some [[Cell.lit (.str "") none], [Cell.lit (.str "") none]], 0⟩)
    ∧ Value.str "" ≠ Value.num 5 := ⟨rfl, by decide⟩

theorem urlMapFor_eq (hs : List Value) (sh : List (List Cell)) (p : Nat)
    (hnd : (hs.map keyOfValue).Nodup) :
    urlMapFor hs sh p
      = (List.range hs.length).map
          (fun i => (keyOfValue (hs.getD i (.str "")),
            (cellAt sh p (i + 1)).linkUrl)) := by
  have hkey : (List.range hs.length).map
      (fun c => keyOfValue (hs.getD c (.str ""))) = hs.map keyOfValue :=
    rangeMap_getD keyOfValue (.str "") hs
  unfold urlMapFor
  rw [foldl_setKey_eq_append _ _ _ _ (by rw [hkey]; exact hnd)
    (by intro c hc e he; cases he), List.nil_append]

theorem matRowsFrom_filter_meta (headings : List Value) (H W : Nat)
    (P : RowObj → Bool) (vs : List (List Value)) (r : RowObj)
    (hr : r ∈ (matRowsFrom headings H W 0 vs).filter P) : r.meta.isSome := by
  rcases mem_matRowsFrom headings H W vs 0 r (List.mem_of_mem_filter hr)
    with ⟨k, _, rfl⟩
  rfl

theorem urlLoop_eq (hs : List Value) (sh : List (List Cell)) :
    ∀ rows : List RowObj, (∀ r ∈ rows, r.meta.isSome) →
      urlLoop hs (some sh) rows
        = some (rows.map
            (fun r => urlMapFor hs sh ((r.meta.getD ⟨0, 0⟩).row)))
  | [], _ => rfl
  | r :: rs, hall => by
    cases hm : r.meta with
    | none =>
      have hsome := hall r (List.mem_cons_self r rs)
      rw [hm] at hsome
      cases hsome
    | some m =>
      simp only [urlLoop, hm]
      rw [urlLoop_eq hs sh rs (fun x hx => hall x (List.mem_cons_of_mem _ hx))]
      simp [hm]

/-- C9 (amended claim): for every matched row, `getUrls` builds a
heading-keyed map in which every heading receives an entry: the entry holds
the hyperlink URL attached to the cell's rich-text value when one exists,
and `null` (`none`) otherwise — an entry is omitted only if the cell yields
no rich-text value at all, which under the platform model never happens,
and in particular a cell without a hyperlink still contributes a
`null`-valued entry rather than being omitted. -/
theorem getUrls_characterization (g : List (List Cell)) (H W fl : Nat)
    (P : RowObj → Bool)
    (hH : 1 ≤ H) (hlen : H < g.length) (hrect : ∀ row ∈ g, row.length = W)
    (hnd : (((g.getD (H - 1) []).map Cell.value).map keyOfValue).Nodup) :
    getUrlsB ⟨some g, fl⟩ (freshBuilder H (some P))
      = some (((matRowsFrom ((g.getD (H - 1) []).map Cell.value) H W 0
          (gridValues (g.drop H))).filter P).map
        (fun r => (List.range
            ((g.getD (H - 1) []).map Cell.value).length).map
          (fun i => (keyOfValue (((g.getD (H - 1) []).map Cell.value).getD i
              (.str "")),
            (cellAt g ((r.meta.getD ⟨0, 0⟩).row) (i + 1)).linkUrl)))) := by
  unfold getUrlsB getRowsB
  rw [getValuesB_fresh_eq g H W fl (some P) hH hlen hrect]
  simp only [freshBuilder]
  rw [materializeData_eq]
  rw [urlLoop_eq _ g _
    (fun r hr => matRowsFrom_filter_meta _ H W P _ r hr)]
  congr 1
  apply List.map_congr_left
  intro r hr
  exact urlMapFor_eq _ _ _ hnd

/-- Witness for C9's amended theorem on the example sheet: the text cell
without a hyperlink yields the entry `(A, null)`, the cell with one yields
`(A, http://y)`. -/
theorem getUrls_characterization_witness :
    (1 ≤ 1 ∧ 1 < urlExampleGrid.length
      ∧ (∀ row ∈ urlExampleGrid, row.length = 1)
      ∧ (((urlExampleGrid.getD 0 []).map Cell.value).map keyOfValue).Nodup)
    ∧ getUrlsB ⟨some urlExampleGrid, 0⟩
        (freshBuilder 1 (some (fun _ => true)))
      = some (((matRowsFrom ((urlExampleGrid.getD 0 []).map Cell.value) 1 1 0
          (gridValues (urlExampleGrid.drop 1))).filter (fun _ => true)).map
        (fun r => (List.range
            ((urlExampleGrid.getD 0 []).map Cell.value).length).map
          (fun i => (keyOfValue
              (((urlExampleGrid.getD 0 []).map Cell.value).getD i (.str "")),
            (cellAt urlExampleGrid ((r.meta.getD ⟨0, 0⟩).row)
              (i + 1)).linkUrl)))) :=
  ⟨⟨by decide, by decide, by decide, by decide⟩,
    getUrls_characterization urlExampleGrid 1 1 0 (fun _ => true)
      (by decide) (by decide) (by decide) (by decide)⟩

/-- Counterexample to C9 as stated: a matched row whose only cell is text
without any hyperlink; the claim says the entry is omitted, but `getUrls`
returns a map that still contains the entry for heading `A`, with a `null`
URL. -/
theorem getUrls_null_entry_counterexample :
    getUrlsB ⟨some [[Cell.lit (.str "A") none],
        [Cell.lit (.str "hello") none]], 0⟩ (freshBuilder 1 none)
      = some [[("A", (none : Option String))]]
    ∧ ([("A", (none : Option String))] : List (String × Option String))
        ≠ [] := ⟨rfl, by decide⟩

end SheetQuery
